import Mathlib

/-!
# dgo: value realization, JSON numbers and the New protocol

A shallow embedding of `internal/value.go` of the dgo runtime type layer.

Go values are modelled by `GoVal`, Go's garbage collected memory by `Heap`
(pointers, slices and maps are references, so cyclic data can be written down),
and `reflect.Value` by `RValue`.  Functions that may abort return `Res`; the
mutually recursive `value` / `ValueFromReflected` take a fuel argument that
bounds the depth of nested calls to `ValueFromReflected`.
-/

namespace Dgo

/-! ## Go types as far as the engine can observe them -/

/-- The kinds of `reflect.Kind`. -/
inductive Kind
  | Invalid | Bool | Int | Int8 | Int16 | Int32 | Int64
  | Uint | Uint8 | Uint16 | Uint32 | Uint64 | Uintptr
  | Float32 | Float64 | Complex64 | Complex128
  | Array | Chan | Func | Interface | Map | Ptr | Slice | String | Struct
  | UnsafePointer
  deriving DecidableEq, Repr

/-- The integer types of Go. -/
inductive IntKind
  | int | int8 | int16 | int32 | int64
  | uint | uint8 | uint16 | uint32 | uint64 | uintptr
  deriving DecidableEq, Repr

/-- The floating point types of Go. -/
inductive FloatKind
  | float32 | float64
  deriving DecidableEq, Repr

/-- Kinds whose values the engine never looks into. -/
inductive OtherKind
  | array | chan | complex64 | complex128 | unsafePointer
  deriving DecidableEq, Repr

def IntKind.kind : IntKind → Kind
  | .int => .Int | .int8 => .Int8 | .int16 => .Int16 | .int32 => .Int32
  | .int64 => .Int64 | .uint => .Uint | .uint8 => .Uint8 | .uint16 => .Uint16
  | .uint32 => .Uint32 | .uint64 => .Uint64 | .uintptr => .Uintptr

def FloatKind.kind : FloatKind → Kind
  | .float32 => .Float32 | .float64 => .Float64

def OtherKind.kind : OtherKind → Kind
  | .array => .Array | .chan => .Chan | .complex64 => .Complex64
  | .complex128 => .Complex128 | .unsafePointer => .UnsafePointer

/-- The interfaces that the type assertions and type switches of `value.go`
test for: `dgo.Value`, `error` and `reflect.Type`. -/
structure MethodSet where
  isValue : Bool
  isError : Bool
  isReflectType : Bool
  deriving DecidableEq, Repr

def MethodSet.none : MethodSet := ⟨false, false, false⟩

def MethodSet.union (a b : MethodSet) : MethodSet :=
  ⟨a.isValue || b.isValue, a.isError || b.isError, a.isReflectType || b.isReflectType⟩

/-- A type declaration `type id ...` with the methods declared on value
receivers (`ms`) and on pointer receivers (`pms`). -/
structure Def where
  id : Nat
  ms : MethodSet
  pms : MethodSet
  deriving DecidableEq, Repr

/-- Go types.  The library types named in the type switch of `value` have
constructors of their own; `defined d u` is any other declared type with
underlying type `u`. -/
inductive GoType
  | bool
  | int (w : IntKind)
  | float (w : FloatKind)
  | string
  | other (k : OtherKind) (id : Nat)
  | ptr (elem : GoType)
  | slice (elem : GoType)
  | map (key val : GoType)
  | func (sig : Nat)
  | struct (id : Nat)
  | iface (numMethod : Nat) (id : Nat)
  | regexp
  | time
  | bigInt
  | bigFloat
  | jsonNumber
  | reflectValue
  | defined (d : Def) (underlying : GoType)
  deriving DecidableEq, Repr

/-- Kind of a type: `reflect.Type.Kind`. -/
def GoType.kind : GoType → Kind
  | .bool => .Bool
  | .int w => w.kind
  | .float w => w.kind
  | .string => .String
  | .other k _ => k.kind
  | .ptr _ => .Ptr
  | .slice _ => .Slice
  | .map _ _ => .Map
  | .func _ => .Func
  | .struct _ => .Struct
  | .iface _ _ => .Interface
  | .regexp => .Struct
  | .time => .Struct
  | .bigInt => .Struct
  | .bigFloat => .Struct
  | .jsonNumber => .String
  | .reflectValue => .Struct
  | .defined _ u => u.kind

/-- The interfaces among `dgo.Value`, `error`, `reflect.Type` that a type
satisfies.  A declared type has the methods of its value receivers, a pointer
to a declared type has those and the methods of its pointer receivers; the
library types of the type switch satisfy none of the three. -/
def GoType.methods : GoType → MethodSet
  | .defined d _ => d.ms
  | .ptr (.defined d _) => d.ms.union d.pms
  | _ => MethodSet.none

/-- The name part of a value's type: `none` for the predeclared or literal
type, `some d` for a declared type. -/
abbrev Named := Option Def

def Named.wrap (n : Named) (u : GoType) : GoType :=
  match n with
  | none => u
  | some d => .defined d u

/-- Addresses of Go's memory. -/
abbrev Addr := Nat

/-- A 64-bit float, given by its IEEE 754 bit pattern. -/
structure F64 where
  bits : Nat
  deriving DecidableEq, Repr

/-! ## Go values -/

/-- Go values.  The first group are native values, each carrying what fixes
its dynamic type.  `iface` is a storage location of interface type (met only
behind a pointer, in a slice or in a map, never as a dynamic value).  The last
group (`d...`) are the values of the engine's own value types, all of which
satisfy `dgo.Value`; where the constructing function is not part of the sources
its result is kept symbolic in its argument. -/
inductive GoVal
  | bool (n : Named) (b : Bool)
  | int (w : IntKind) (n : Named) (i : Int)
  | float (w : FloatKind) (n : Named) (f : F64)
  | str (n : Named) (s : String)
  | other (k : OtherKind) (id : Nat) (n : Named) (payload : Nat)
  | ptr (n : Named) (elem : GoType) (target : Option Addr)
  | slice (n : Named) (elem : GoType) (elems : Option (List Addr))
  | map (n : Named) (key val : GoType) (table : Option Addr)
  | func (n : Named) (sig : Nat) (code : Option Nat)
  | struct (n : Named) (id : Nat) (payload : Nat)
  | iface (numMethod : Nat) (id : Nat) (dyn : Option GoVal)
  | time (wall : Int)
  | jsonNumber (s : String)
  | reflected (val : Option GoVal) (ro : Bool)
  | dNil
  | dString (s : String)
  | dInt (i : Int)
  | dBool (b : Bool)
  | dFloat (f : F64)
  | dBinary (v : GoVal) (frozen : Bool)
  | dStrings (v : GoVal)
  | dIntegers (v : GoVal)
  | dRegexp (v : GoVal)
  | dTime (wall : Int)
  | dBigInt (v : GoVal)
  | dBigFloat (v : GoVal)
  | dUnsigned (u : Nat)
  | dUint64 (u : Nat)
  | dErr (v : GoVal)
  | dType (v : GoVal)
  | dArray (elems : List (Option GoVal)) (frozen : Bool)
  | dMap (entries : List (Option GoVal × Option GoVal)) (frozen : Bool)
  | dFunc (val : Option GoVal) (ro : Bool)
  | dNative (val : Option GoVal) (ro : Bool)
  | dArguments (args : List GoVal)

/-- An interface value (`interface{}` or `dgo.Value`): nil or a dynamic value. -/
abbrev Iface := Option GoVal

/-- Whether the value is one of the engine's own values. -/
def GoVal.isDomain : GoVal → Bool
  | .bool .. | .int .. | .float .. | .str .. | .other .. | .ptr .. | .slice ..
  | .map .. | .func .. | .struct .. | .iface .. | .time .. | .jsonNumber ..
  | .reflected .. => false
  | _ => true

/-- Dynamic type of a value.  The engine's own values that `value.go` builds
with `&timeVal{...}`, `&errw{...}` and `(*goFunc)(&vr)` are pointers to
structs; the struct types 1, 2 and 3 stand for `timeVal`, `errw` and `goFunc`,
whose declarations are not part of the sources.  For the other values of the
engine, built by functions that are not part of the sources, the answer is a
struct type that is not used otherwise. -/
def GoVal.typeOf : GoVal → GoType
  | .bool n _ => n.wrap .bool
  | .int w n _ => n.wrap (.int w)
  | .float w n _ => n.wrap (.float w)
  | .str n _ => n.wrap .string
  | .other k id n _ => n.wrap (.other k id)
  | .ptr n e _ => n.wrap (.ptr e)
  | .slice n e _ => n.wrap (.slice e)
  | .map n k v _ => n.wrap (.map k v)
  | .func n sig _ => n.wrap (.func sig)
  | .struct n id _ => n.wrap (.struct id)
  | .iface nm id _ => .iface nm id
  | .time _ => .time
  | .jsonNumber _ => .jsonNumber
  | .reflected _ _ => .reflectValue
  | .dTime _ => .ptr (.struct 1)
  | .dErr _ => .ptr (.struct 2)
  | .dFunc _ _ => .ptr (.struct 3)
  | _ => .struct 0

/-- Type assertion `v.(dgo.Value)`. -/
def GoVal.implValue (v : GoVal) : Bool :=
  v.isDomain || v.typeOf.methods.isValue

/-- Type assertion `v.(error)`: of the engine's own values only the error
wrapper is an error. -/
def GoVal.implError : GoVal → Bool
  | .dErr _ => true
  | v => !v.isDomain && v.typeOf.methods.isError

/-- Type assertion `v.(reflect.Type)`. -/
def GoVal.implReflectType (v : GoVal) : Bool :=
  !v.isDomain && v.typeOf.methods.isReflectType

/-! ## Memory and reflection -/

/-- Go's memory: the cells that pointers and slice elements refer to and the
tables that map values refer to. -/
structure Heap where
  cell : Addr → Option GoVal
  table : Addr → Option (List (GoVal × GoVal))

/-- A `reflect.Value`: the zero (invalid) handle when `val` is `none`; `ro`
is set when the handle was obtained through an unexported struct field. -/
structure RValue where
  val : Option GoVal
  ro : Bool

namespace RValue

/-- The function `reflect.ValueOf`. -/
def ValueOf (v : Iface) : RValue := ⟨v, false⟩

def IsValid (vr : RValue) : Bool := vr.val.isSome

/-- Kind of the handle: the kind of the type of the value it holds. -/
def Kind (vr : RValue) : Kind :=
  match vr.val with
  | none => .Invalid
  | some v => v.typeOf.kind

/-- Method count of the handle's type, for a handle of interface kind. -/
def NumMethod (vr : RValue) : Nat :=
  match vr.val with
  | some (.iface nm _ _) => nm
  | _ => 0

/-- Whether a handle of pointer kind holds the nil pointer. -/
def IsNil (vr : RValue) : Bool :=
  match vr.val with
  | some (.ptr _ _ none) => true
  | some (.slice _ _ none) => true
  | some (.map _ _ _ none) => true
  | some (.func _ _ none) => true
  | some (.iface _ _ none) => true
  | _ => false

/-- Pointee of a pointer handle or content of an interface handle; the
read-only flag is inherited.  The pointee of one of the engine's own pointers
is the struct it was built from; its fields and the methods of its type are not
part of the sources, and it is kept as a struct without content or methods. -/
def Elem (h : Heap) (vr : RValue) : RValue :=
  match vr.val with
  | some (.ptr _ _ (some a)) => ⟨h.cell a, vr.ro⟩
  | some (.iface _ _ dyn) => ⟨dyn, vr.ro⟩
  | some (.dTime w) => ⟨some (.struct none 1 (Encodable.encode w)), vr.ro⟩
  | some (.dErr _) => ⟨some (.struct none 2 0), vr.ro⟩
  | some (.dFunc _ _) => ⟨some (.struct none 3 0), vr.ro⟩
  | _ => ⟨none, vr.ro⟩

def CanInterface (vr : RValue) : Bool := !vr.ro

/-- The method `Interface`: the held value as an `interface{}`; for a handle
of interface kind this is the value inside the interface. -/
def Interface (vr : RValue) : Iface :=
  match vr.val with
  | some (.iface _ _ dyn) => dyn
  | v => v

/-- Elements of a slice handle, in order. -/
def Elems (h : Heap) (vr : RValue) : List RValue :=
  match vr.val with
  | some (.slice _ _ (some as)) => as.map (fun a => ⟨h.cell a, vr.ro⟩)
  | _ => []

/-- Key and value handles of a map handle. -/
def Entries (h : Heap) (vr : RValue) : List (RValue × RValue) :=
  match vr.val with
  | some (.map _ _ _ (some a)) =>
    ((h.table a).getD []).map (fun kv => (⟨some kv.1, vr.ro⟩, ⟨some kv.2, vr.ro⟩))
  | _ => []

end RValue

/-! ## The parsers of package strconv

`json.Number` is a string type whose methods `Int64` and `Float64` are
`strconv.ParseInt(s, 10, 64)` and `strconv.ParseFloat(s, 64)`.  The parsers are
written over the character codes of the token. -/

namespace Strconv

/-- The two errors of a `strconv.NumError` raised by the parsers. -/
inductive NumErr
  | syntaxErr
  | rangeErr
  deriving DecidableEq, Repr

/-- Character codes of a token. -/
def codes (s : String) : List Nat := s.toList.map Char.toNat

/-- Lower-casing used by strconv: `c | ('x' - 'X')`. -/
def lower (c : Nat) : Nat := c ||| 32

/-- Value and error of `ParseUint` and `ParseInt`. -/
structure Parsed (α : Type) where
  val : α
  err : Option NumErr
  deriving DecidableEq, Repr

def maxUint64 : Nat := 2 ^ 64 - 1

/-- The function `underscoreOK`: underscores may only separate digits, or
follow a base marker. -/
def underscoreLoop (hex : Bool) : List Nat → Nat → Bool
  | [], i => i != 95
  | c :: cs, i =>
    if (48 ≤ c ∧ c ≤ 57) ∨ (hex = true ∧ 97 ≤ lower c ∧ lower c ≤ 102) then
      underscoreLoop hex cs 48
    else if c = 95 then
      if i != 48 then false else underscoreLoop hex cs 95
    else if i = 95 then false
    else underscoreLoop hex cs 33

def dropSign : List Nat → List Nat
  | c :: cs => if c = 45 ∨ c = 43 then cs else c :: cs
  | [] => []

def underscoreOK (s : List Nat) : Bool :=
  match dropSign s with
  | c0 :: c1 :: cs =>
    if c0 = 48 ∧ (lower c1 = 98 ∨ lower c1 = 111 ∨ lower c1 = 120) then
      underscoreLoop (lower c1 = 120) cs 48
    else underscoreLoop false (c0 :: c1 :: cs) 94
  | cs => underscoreLoop false cs 94

/-- Digit loop of `ParseUint`: `n` is the number read so far, `us` whether an
underscore was seen.  A range error is raised as soon as the number leaves
64 bits, before the rest of the token is looked at. -/
def uintLoop (base : Nat) (base0 : Bool) (cutoff maxVal : Nat) :
    List Nat → Nat → Bool → Except NumErr (Nat × Bool)
  | [], n, us => .ok (n, us)
  | c :: cs, n, us =>
    if c = 95 ∧ base0 = true then uintLoop base base0 cutoff maxVal cs n true
    else
      let d? : Option Nat :=
        if 48 ≤ c ∧ c ≤ 57 then some (c - 48)
        else if 97 ≤ lower c ∧ lower c ≤ 122 then some (lower c - 97 + 10)
        else none
      match d? with
      | none => .error .syntaxErr
      | some d =>
        if d ≥ base then .error .syntaxErr
        else if n ≥ cutoff then .error .rangeErr
        else
          let m := n * base
          let n1 := (m + d) % 2 ^ 64
          if n1 < m ∨ n1 > maxVal then .error .rangeErr
          else uintLoop base base0 cutoff maxVal cs n1 us

/-- Base and digits chosen by `ParseUint` for base argument 0. -/
def splitBase0 (s : List Nat) : Nat × List Nat :=
  match s with
  | 48 :: rest =>
    match rest with
    | c1 :: d :: ds =>
      if lower c1 = 98 then (2, d :: ds)
      else if lower c1 = 111 then (8, d :: ds)
      else if lower c1 = 120 then (16, d :: ds)
      else (8, rest)
    | _ => (8, rest)
  | _ => (10, s)

/-- The function `strconv.ParseUint(s, base, 64)` for base 0 or 2..36. -/
def ParseUintCodes (s : List Nat) (base : Nat) : Parsed Nat :=
  if s = [] then ⟨0, some .syntaxErr⟩
  else
    let base0 := base == 0
    let bs : Nat × List Nat := if base0 then splitBase0 s else (base, s)
    let cutoff := maxUint64 / bs.1 + 1
    match uintLoop bs.1 base0 cutoff maxUint64 bs.2 0 false with
    | .error .syntaxErr => ⟨0, some .syntaxErr⟩
    | .error .rangeErr => ⟨maxUint64, some .rangeErr⟩
    | .ok (n, us) =>
      if us && !underscoreOK s then ⟨0, some .syntaxErr⟩ else ⟨n, none⟩

def ParseUint (s : String) (base : Nat) : Parsed Nat := ParseUintCodes (codes s) base

/-- The function `strconv.ParseInt(s, base, 64)`. -/
def ParseInt (s : String) (base : Nat) : Parsed Int :=
  match codes s with
  | [] => ⟨0, some .syntaxErr⟩
  | c :: cs =>
    let neg := c == 45
    let body := if c = 43 ∨ c = 45 then cs else c :: cs
    let un := ParseUintCodes body base
    if un.err = some .syntaxErr then ⟨0, some .syntaxErr⟩
    else
      let cutoff : Nat := 2 ^ 63
      if !neg && un.val ≥ cutoff then ⟨(cutoff : Int) - 1, some .rangeErr⟩
      else if neg && un.val > cutoff then ⟨-(cutoff : Int), some .rangeErr⟩
      else ⟨if neg then -(un.val : Int) else (un.val : Int), none⟩

/-- Scanner state of `readFloat`: the digits read so far as a number, their
count `nd`, the position `dp` of the point, and what has been seen. -/
structure FloatScan where
  mant : Nat
  nd : Nat
  dp : Int
  sawdot : Bool
  sawdigits : Bool
  us : Bool

/-- Mantissa loop of `readFloat`; returns the state and the unread rest. -/
def mantLoop (hex : Bool) : List Nat → FloatScan → FloatScan × List Nat
  | [], st => (st, [])
  | c :: cs, st =>
    if c = 95 then mantLoop hex cs { st with us := true }
    else if c = 46 then
      if st.sawdot then (st, c :: cs)
      else mantLoop hex cs { st with sawdot := true, dp := st.nd }
    else if 48 ≤ c ∧ c ≤ 57 then
      if c = 48 ∧ st.nd = 0 then
        mantLoop hex cs { st with sawdigits := true, dp := st.dp - 1 }
      else
        mantLoop hex cs { st with sawdigits := true, nd := st.nd + 1,
                                  mant := st.mant * (if hex then 16 else 10) + (c - 48) }
    else if hex = true ∧ 97 ≤ lower c ∧ lower c ≤ 102 then
      mantLoop hex cs { st with sawdigits := true, nd := st.nd + 1,
                                mant := st.mant * 16 + (lower c - 97 + 10) }
    else (st, c :: cs)

/-- Exponent digits of `readFloat`: the exponent stops growing once it has
reached 10000. -/
def expLoop : List Nat → Nat → Bool → Nat × Bool × List Nat
  | [], e, us => (e, us, [])
  | c :: cs, e, us =>
    if 48 ≤ c ∧ c ≤ 57 then expLoop cs (if e < 10000 then e * 10 + (c - 48) else e) us
    else if c = 95 then expLoop cs e true
    else (e, us, c :: cs)

/-- What `readFloat` hands on: sign, digits as a number, exponent (of 2 for
a hexadecimal literal, of 10 otherwise), whether an underscore was seen, and
the unread rest. -/
structure FloatLit where
  neg : Bool
  mant : Nat
  exp : Int
  hex : Bool
  us : Bool
  rest : List Nat
  deriving DecidableEq

/-- The function `readFloat`, with the digits kept exactly. -/
def readFloat (s : List Nat) : Option FloatLit :=
  match s with
  | [] => none
  | c :: cs =>
    let neg := c == 45
    let body := if c = 43 ∨ c = 45 then cs else c :: cs
    let hb : Bool × List Nat :=
      match body with
      | c0 :: c1 :: d :: ds => if c0 = 48 ∧ lower c1 = 120 then (true, d :: ds) else (false, body)
      | _ => (false, body)
    let hex := hb.1
    let r := mantLoop hex hb.2 ⟨0, 0, 0, false, false, false⟩
    let st := r.1
    if !st.sawdigits then none
    else
      let dp0 : Int := if st.sawdot then st.dp else st.nd
      let dp : Int := if hex then dp0 * 4 else dp0
      let ndm : Int := if hex then (st.nd : Int) * 4 else st.nd
      let fin (dp : Int) (us : Bool) (rest : List Nat) : Option FloatLit :=
        some ⟨neg, st.mant, if st.mant != 0 then dp - ndm else 0, hex, us, rest⟩
      match r.2 with
      | e :: es =>
        if lower e = (if hex then 112 else 101) then
          match es with
          | [] => none
          | g :: gs =>
            let esign : Int := if g = 45 then -1 else 1
            let ds := if g = 43 ∨ g = 45 then gs else g :: gs
            match ds with
            | [] => none
            | d :: _ =>
              if d < 48 ∨ d > 57 then none
              else
                let x := expLoop ds 0 st.us
                fin (dp + (x.1 : Int) * esign) x.2.1 x.2.2
        else if hex then none
        else fin dp st.us r.2
      | [] => if hex then none else fin dp st.us []

/-- Rounding of a quotient to the nearest integer, ties to even. -/
def roundHalfEven (num den : Nat) : Nat :=
  let q := num / den
  let r := num % den
  if 2 * r > den ∨ (2 * r = den ∧ q % 2 = 1) then q + 1 else q

/-- Whether `2 ^ e ≤ num / den`. -/
def geTwoPow (num den : Nat) (e : Int) : Bool :=
  if e ≥ 0 then decide (den * 2 ^ e.toNat ≤ num) else decide (den ≤ num * 2 ^ (-e).toNat)

/-- The `e` with `2 ^ e ≤ num / den < 2 ^ (e + 1)`, for positive `num`, `den`. -/
def floorLog2 (num den : Nat) : Int :=
  let e0 : Int := (Nat.log2 num : Int) - (Nat.log2 den : Int)
  if geTwoPow num den e0 then e0 else e0 - 1

/-- Nearest 64-bit float of `± num / den` (IEEE 754 round to nearest even);
beyond the largest float the result is an infinity and a range error. -/
def toF64 (neg : Bool) (num den : Nat) : Parsed F64 :=
  let sign : Nat := if neg then 2 ^ 63 else 0
  if num = 0 then ⟨⟨sign⟩, none⟩
  else
    let e := max (floorLog2 num den) (-1022)
    let k : Int := 52 - e
    let q := if k ≥ 0 then roundHalfEven (num * 2 ^ k.toNat) den
             else roundHalfEven num (den * 2 ^ (-k).toNat)
    let bits := (e + 1022).toNat * 2 ^ 52 + q
    if bits ≥ 2047 * 2 ^ 52 then ⟨⟨sign + 2047 * 2 ^ 52⟩, some .rangeErr⟩
    else ⟨⟨sign + bits⟩, none⟩

/-- ASCII lower-casing of the letters `A`..`Z`. -/
def asciiLower (c : Nat) : Nat := if 65 ≤ c ∧ c ≤ 90 then c + 32 else c

/-- The function `special`, for a token that has to be matched in full:
`inf`, `infinity` (optionally signed) and `nan`, in any case. -/
def special (s : List Nat) : Option F64 :=
  let low := s.map asciiLower
  let inf : List Nat := [105, 110, 102]
  let infinity : List Nat := [105, 110, 102, 105, 110, 105, 116, 121]
  if low = [110, 97, 110] then some ⟨0x7FF8000000000001⟩
  else if low = inf ∨ low = infinity ∨ low = 43 :: inf ∨ low = 43 :: infinity then
    some ⟨2047 * 2 ^ 52⟩
  else if low = 45 :: inf ∨ low = 45 :: infinity then some ⟨2 ^ 63 + 2047 * 2 ^ 52⟩
  else none

/-- The function `strconv.ParseFloat(s, 64)`. -/
def ParseFloat (s : String) : Parsed F64 :=
  let cs := codes s
  match special cs with
  | some f => ⟨f, none⟩
  | none =>
    match readFloat cs with
    | none => ⟨⟨0⟩, some .syntaxErr⟩
    | some lit =>
      if lit.rest ≠ [] then ⟨⟨0⟩, some .syntaxErr⟩
      else if lit.us && !underscoreOK cs then ⟨⟨0⟩, some .syntaxErr⟩
      else
        let b : Nat := if lit.hex then 2 else 10
        if lit.exp ≥ 0 then toF64 lit.neg (lit.mant * b ^ lit.exp.toNat) 1
        else toF64 lit.neg lit.mant (b ^ (-lit.exp).toNat)

end Strconv

/-! ## Results -/

/-- The fatal failures (Go panics) that the functions of `value.go` can end in. -/
inductive Panic
  /-- Runtime error: invalid memory address or nil pointer dereference. -/
  | nilDereference
  /-- Raised by `FromJSONNumber`: `catch.Error(err)`. -/
  | numError (e : Strconv.NumErr)
  /-- Raised by `New`: unable to create a type from arguments. -/
  | newFromArguments (typ : Nat) (args : List GoVal)
  /-- Raised by `New`: unable to create a type from a value. -/
  | newFrom (typ : Nat) (argument : Option GoVal)
  /-- Raised by a type's own construction strategy. -/
  | factory (code : Nat)

/-- Outcome of a call: a result, a panic, or no answer within the fuel given. -/
inductive Res (α : Type)
  | ok (a : α)
  | panic (p : Panic)
  | outOfFuel

/-- Whether the call came back with a result. -/
def Res.returns {α : Type} : Res α → Bool
  | .ok _ => true
  | _ => false

/-- Whether the call ended in a panic. -/
def Res.panics {α : Type} : Res α → Bool
  | .panic _ => true
  | _ => false

/-! ## The New protocol -/

/-- A `dgo.Type`: its identity, its construction strategy when it satisfies
`dgo.Factory`, and its instance predicate. -/
structure DType where
  id : Nat
  factory : Option (Iface → Res Iface)
  Instance : Iface → Bool

/-- Type assertion `argument.(dgo.Arguments)`.
Modelled from the spec: the positional-argument list of the engine, whose
declaration is not part of the sources; `Len` is the number of its elements
and `Get(0)` its first element. -/
def asArguments : Iface → Option (List GoVal)
  | some (.dArguments args) => some args
  | _ => none

/-- The function `New`. -/
def New (typ : DType) (argument : Iface) : Res Iface :=
  match typ.factory with
  | some nt => nt argument
  | none =>
    let unwrapped : Res Iface :=
      match asArguments argument with
      | some args =>
        if args.length != 1 then .panic (.newFromArguments typ.id args)
        else .ok args.head?
      | none => .ok argument
    match unwrapped with
    | .ok argument =>
      if typ.Instance argument then .ok argument
      else .panic (.newFrom typ.id argument)
    | r => r

/-! ## JSON numbers -/

/-- The function `FromJSONNumber`.  `nv` and `err` are the variables of the
source after its first conditional. -/
def FromJSONNumber (v : String) : Res Iface :=
  let i := Strconv.ParseInt v 10
  let st : Iface × Option Strconv.NumErr :=
    match i.err with
    | none => (some (.dInt i.val), none)
    | some e =>
      if e = .rangeErr then
        let u := Strconv.ParseUint v 0
        match u.err with
        | none => (some (.dUint64 u.val), none)
        | some e1 => (none, some e1)
      else (none, some e)
  match st.2 with
  | none => .ok st.1
  | some _ =>
    let f := Strconv.ParseFloat v
    match f.err with
    | none => .ok (some (.dFloat f.val))
    | some e => .panic (.numError e)

/-! ## Realization -/

/-- The numeric coercions `ToInt` and `ToFloat` of the engine, whose bodies
are not part of the sources. -/
structure Env where
  ToInt : GoVal → Option Int
  ToFloat : GoVal → Option F64

/-- Type assertion `v.(dgo.Value)` on an interface value. -/
def isValue : Iface → Bool
  | some v => v.implValue
  | none => false

/-- Whether the dynamic type of `v` is one of the exact types named in the
type switch of `value`, or satisfies one of its two interface cases. -/
def matchesFastPath : Iface → Bool
  | none => true
  | some (.str none _) => true
  | some (.int .int none _) => true
  | some (.bool none _) => true
  | some (.slice none (.int .uint8) _) => true
  | some (.slice none .string _) => true
  | some (.slice none (.int .int) _) => true
  | some (.ptr none .regexp _) => true
  | some (.time _) => true
  | some (.ptr none .time _) => true
  | some (.ptr none .bigInt _) => true
  | some (.ptr none .bigFloat _) => true
  | some (.int .uint none _) => true
  | some (.int .uint64 none _) => true
  | some (.jsonNumber _) => true
  | some (.reflected _ _) => true
  | some v => v.implError || v.implReflectType

/-- The function `value`, with the function to call for a nested
`reflect.Value` passed in as `vfr`.  A nil result is `.ok none`.  Copying
`*v` for a `*time.Time` faults on the nil pointer, and on a pointer whose cell
holds no `time.Time`. -/
def valueWith (env : Env) (h : Heap) (vfr : RValue → Bool → Res Iface)
    (v : Iface) (frozen : Bool) : Res Iface :=
  match v with
  | none => .ok (some .dNil)
  | some (.str none s) => .ok (some (.dString s))
  | some (.int .int none i) => .ok (some (.dInt i))
  | some (.bool none b) => .ok (some (.dBool b))
  | some (.slice none (.int .uint8) d) => .ok (some (.dBinary (.slice none (.int .uint8) d) frozen))
  | some (.slice none .string d) => .ok (some (.dStrings (.slice none .string d)))
  | some (.slice none (.int .int) d) => .ok (some (.dIntegers (.slice none (.int .int) d)))
  | some (.ptr none .regexp t) => .ok (some (.dRegexp (.ptr none .regexp t)))
  | some (.time w) => .ok (some (.dTime w))
  | some (.ptr none .time t) =>
    match t with
    | none => .panic .nilDereference
    | some a =>
      match h.cell a with
      | some (.time w) => .ok (some (.dTime w))
      | _ => .panic .nilDereference
  | some (.ptr none .bigInt t) => .ok (some (.dBigInt (.ptr none .bigInt t)))
  | some (.ptr none .bigFloat t) => .ok (some (.dBigFloat (.ptr none .bigFloat t)))
  | some (.int .uint none i) => .ok (some (.dUnsigned i.toNat))
  | some (.int .uint64 none i) => .ok (some (.dUnsigned i.toNat))
  | some x =>
    if x.implError then .ok (some (.dErr x))
    else
      match x with
      | .jsonNumber s => FromJSONNumber s
      | .reflected val ro => vfr ⟨val, ro⟩ frozen
      | x =>
        if x.implReflectType then .ok (some (.dType x))
        else
          match env.ToInt x with
          | some i => .ok (some (.dInt i))
          | none =>
            match env.ToFloat x with
            | some f => .ok (some (.dFloat f))
            | none => .ok none

/-- Collects the results of realizing a list of handles, stopping at the
first call that does not come back. -/
def realizeAll (rec : RValue → Bool → Res Iface) (frozen : Bool) :
    List RValue → Res (List Iface)
  | [] => .ok []
  | vr :: rest =>
    match rec vr frozen with
    | .ok v =>
      match realizeAll rec frozen rest with
      | .ok vs => .ok (v :: vs)
      | r => r
    | .panic p => .panic p
    | .outOfFuel => .outOfFuel

/-- Collects the results of realizing the entries of a map handle. -/
def realizeEntries (rec : RValue → Bool → Res Iface) (frozen : Bool) :
    List (RValue × RValue) → Res (List (Iface × Iface))
  | [] => .ok []
  | kv :: rest =>
    match rec kv.1 frozen with
    | .ok k =>
      match rec kv.2 frozen with
      | .ok v =>
        match realizeEntries rec frozen rest with
        | .ok es => .ok ((k, v) :: es)
        | r => r
      | .panic p => .panic p
      | .outOfFuel => .outOfFuel
    | .panic p => .panic p
    | .outOfFuel => .outOfFuel

/-- Modelled from the spec: `ArrayFromReflected`, whose body is not part of
the sources: a sequence-like value is realized element by element into an
ordered sequence, the immutability flag going to the elements. -/
def ArrayFromReflected (rec : RValue → Bool → Res Iface) (h : Heap)
    (vr : RValue) (frozen : Bool) : Res Iface :=
  match realizeAll rec frozen (vr.Elems h) with
  | .ok vs => .ok (some (.dArray vs frozen))
  | .panic p => .panic p
  | .outOfFuel => .outOfFuel

/-- Modelled from the spec: `FromReflectedMap`, whose body is not part of
the sources: a mapping-like value is realized pair by pair. -/
def FromReflectedMap (rec : RValue → Bool → Res Iface) (h : Heap)
    (vr : RValue) (frozen : Bool) : Res Iface :=
  match realizeEntries rec frozen (vr.Entries h) with
  | .ok es => .ok (some (.dMap es frozen))
  | .panic p => .panic p
  | .outOfFuel => .outOfFuel

/-- The function `ValueFromReflected`.  The fuel bounds the depth of nested
calls; the calls made by a call with fuel `n + 1` have fuel `n`. -/
def ValueFromReflected (env : Env) (h : Heap) : Nat → RValue → Bool → Res Iface
  | 0, _, _ => .outOfFuel
  | n + 1, vr, frozen =>
    if !vr.IsValid then .ok (some .dNil)
    else
      match vr.Kind with
      | .Slice => ArrayFromReflected (ValueFromReflected env h n) h vr frozen
      | .Map => FromReflectedMap (ValueFromReflected env h n) h vr frozen
      | k =>
        if k = .Interface ∧ vr.NumMethod = 0 then
          ValueFromReflected env h n (vr.Elem h) frozen
        else if k = .Ptr ∧ vr.IsNil = true then .ok (some .dNil)
        else if k = .Func then .ok (some (.dFunc vr.val vr.ro))
        else
          let isPtr := k == .Ptr
          let direct : Option (Res Iface) :=
            if vr.CanInterface then
              let vi := vr.Interface
              if isValue vi then some (.ok vi)
              else
                match valueWith env h (ValueFromReflected env h n) vi frozen with
                | .ok none => none
                | r => some r
            else none
          match direct with
          | some r => r
          | none =>
            if isPtr && (vr.Elem h).Kind != .Struct then
              ValueFromReflected env h n (vr.Elem h) frozen
            else .ok (some (.dNative vr.val vr.ro))

/-- The function `value` at a given fuel. -/
def value (env : Env) (h : Heap) (fuel : Nat) (v : Iface) (frozen : Bool) : Res Iface :=
  valueWith env h (ValueFromReflected env h fuel) v frozen

/-- The function `Value`. -/
def Value (env : Env) (h : Heap) (fuel : Nat) (v : Iface) : Res Iface :=
  if isValue v then .ok v
  else
    match value env h fuel v false with
    | .ok none => ValueFromReflected env h fuel (RValue.ValueOf v) false
    | r => r

/-! ## Notions used to state the claims -/

/-- Following the words of the claim: the order of the three parses, each
reading the token in base 10 as the signed parse does: the signed integer;
else, after a range overflow, the unsigned integer; else the float; else a
panic with the error of the float parse. -/
def orderOfParses (s : String) : Res Iface :=
  let i := Strconv.ParseInt s 10
  let u := Strconv.ParseUint s 10
  let f := Strconv.ParseFloat s
  if i.err = none then .ok (some (.dInt i.val))
  else if i.err = some .rangeErr ∧ u.err = none then .ok (some (.dUint64 u.val))
  else
    match f.err with
    | none => .ok (some (.dFloat f.val))
    | some e => .panic (.numError e)

/-- The default branch of the type switch of `value`: integral coercion
first, floating-point coercion second, else a nil result. -/
def coerce (env : Env) (x : GoVal) : Res Iface :=
  match env.ToInt x with
  | some i => .ok (some (.dInt i))
  | none =>
    match env.ToFloat x with
    | some f => .ok (some (.dFloat f))
    | none => .ok none

/-! ## Sample surroundings and inputs for concrete runs -/

/-- Modelled from the spec: the numeric coercions `ToInt` and `ToFloat`, whose
bodies are not part of the sources: an integer that fits 64 signed bits has a
lossless integral representation, a float a floating-point one. -/
def sampleEnv : Env where
  ToInt := fun v =>
    match v with
    | .int _ _ i => if -(2 ^ 63 : Int) ≤ i ∧ i < 2 ^ 63 then some i else none
    | _ => none
  ToFloat := fun v =>
    match v with
    | .float _ _ f => some f
    | _ => none

/-- A memory without any cell or table. -/
def emptyHeap : Heap := ⟨fun _ => none, fun _ => none⟩

/-- The nil pointer of type `*time.Time`. -/
def nilTimePtr : GoVal := .ptr none .time none

/-- A type without a construction strategy that accepts every value. -/
def anyType : DType := ⟨1, none, fun _ => true⟩

/-- A type without a construction strategy whose instances are the integer
values. -/
def integerType : DType :=
  ⟨2, none, fun v => match v with | some (.dInt _) => true | _ => false⟩

/-- A type with a construction strategy: it builds the string value `made`
from any argument, and its instance predicate holds for nothing. -/
def factoryType : DType :=
  ⟨3, some (fun _ => .ok (some (.dString "made"))), fun _ => false⟩

/-- A declared function type `type F func()` whose methods satisfy
`dgo.Value`. -/
def funcValueDef : Def := ⟨7, ⟨true, false, false⟩, MethodSet.none⟩

/-- A non-nil function of type `F`. -/
def funcValue : GoVal := .func (some funcValueDef) 0 (some 0)

/-- A declared struct type `type T struct` whose pointer-receiver methods
satisfy `dgo.Value`. -/
def ptrValueDef : Def := ⟨8, MethodSet.none, ⟨true, false, false⟩⟩

/-- The nil pointer of type `*T`. -/
def nilValuePtr : GoVal := .ptr none (.defined ptrValueDef (.struct 8)) none

/-- A declared struct type `type S struct` whose methods satisfy `dgo.Value`. -/
def structValueDef : Def := ⟨9, ⟨true, false, false⟩, MethodSet.none⟩

/-- A value of type `S`. -/
def structValue : GoVal := .struct (some structValueDef) 9 0

/-- A memory with the `int` 5 in cell 0 and a struct in cell 1. -/
def sampleHeap : Heap :=
  ⟨fun a => if a = 0 then some (.int .int none 5)
            else if a = 1 then some (.struct none 4 0) else none,
   fun _ => none⟩

/-- A pointer of type `*int` to cell 0. -/
def intPtr : GoVal := .ptr none (.int .int) (some 0)

/-- A pointer to the struct in cell 1. -/
def structPtr : GoVal := .ptr none (.struct 4) (some 1)

/-! ## Decimal reading of a token -/

/-- The number written by a run of decimal digits; `none` when the run is
empty or holds another character. -/
def decimalDigits : List Nat → Option Nat
  | [] => none
  | cs => cs.foldl (fun acc c =>
      match acc with
      | none => none
      | some n => if 48 ≤ c ∧ c ≤ 57 then some (n * 10 + (c - 48)) else none) (some 0)

/-- The base-10 number that a token denotes: decimal digits after an optional
sign. -/
def decimalValue (s : String) : Option Int :=
  match Strconv.codes s with
  | [] => none
  | c :: cs =>
    if c = 45 then (decimalDigits cs).map (fun n => -(n : Int))
    else if c = 43 then (decimalDigits cs).map (fun n => (n : Int))
    else (decimalDigits (c :: cs)).map (fun n => (n : Int))

/-- A channel, which no fast path and no coercion matches. -/
def chanValue : GoVal := .other .chan 0 none 0

/-! ## Nested calls and finite values -/

/-- The nested `reflect.Value` that `value` hands on when the interfaced
value of a handle is itself a `reflect.Value`. -/
def RValue.nested (vr : RValue) : List RValue :=
  match vr.Interface with
  | some (.reflected a b) => [⟨a, b⟩]
  | _ => []

/-- The handles on which a call of `ValueFromReflected` on `vr` may make a
nested call: the elements of a slice, the keys and values of a map, what an
interface holds, the pointee of a pointer, and a nested `reflect.Value`. -/
def RValue.children (h : Heap) (vr : RValue) : List RValue :=
  if !vr.IsValid then []
  else
    match vr.Kind with
    | .Slice => vr.Elems h
    | .Map => (vr.Entries h).map Prod.fst ++ (vr.Entries h).map Prod.snd
    | .Interface => vr.Elem h :: vr.nested
    | .Ptr => vr.Elem h :: vr.nested
    | _ => vr.nested

/-- A handle is finite when the tree of its nested handles is: all its
children are finite. -/
inductive Finite (h : Heap) : RValue → Prop
  | intro (vr : RValue) (hc : ∀ c, c ∈ vr.children h → Finite h c) : Finite h vr

/-- A pointer of type `*interface{}` to cell 0. -/
def selfPtr : GoVal := .ptr none (.iface 0 0) (some 0)

/-- A memory whose cell 0 is an `interface{}` that holds the pointer to
cell 0: the program `var p interface{}; p = &p`. -/
def cyclicHeap : Heap :=
  ⟨fun a => if a = 0 then some (.iface 0 0 (some selfPtr)) else none, fun _ => none⟩

/-- Whether the kind of a native value is neither slice, map nor function,
and the value is not a nil pointer. -/
def plainKind (x : Iface) : Prop :=
  (RValue.ValueOf x).Kind ≠ .Slice ∧ (RValue.ValueOf x).Kind ≠ .Map ∧
  (RValue.ValueOf x).Kind ≠ .Func ∧
  ¬ ((RValue.ValueOf x).Kind = .Ptr ∧ (RValue.ValueOf x).IsNil = true)

/-- Whether an interface value holds a `reflect.Value`. -/
def isReflectValue : Iface → Bool
  | some (.reflected _ _) => true
  | _ => false

/-- Whether an interface value holds a storage location of interface type,
which no dynamic value is. -/
def isIfaceStorage : Iface → Bool
  | some (.iface _ _ _) => true
  | _ => false

/-! ## Reflection projection -/

/-- The interface type `dgo.Value`, held by `reflectValueType`.  Its
declaration is not part of the sources; it is an interface type with methods. -/
def reflectValueType : GoType := .iface 4 1

/-- The empty interface type `interface{}`. -/
def emptyInterface : GoType := .iface 0 0

/-- What the projection depends on and the sources do not declare. -/
structure Decls where
  /-- Whether the type of a value satisfies `dgo.ReflectedValue`. -/
  offers : GoVal → Bool
  /-- Declared type of a value of the engine that is built by a function
  outside the sources. -/
  ownType : GoVal → GoType
  /-- What such a value points to when its type is a pointer type. -/
  ownElem : GoVal → Option GoVal
  /-- Whether a type has all methods of the interface type with the given
  identity. -/
  implements : GoType → Nat → Bool
  /-- Whether the first of two different types is assignable to the second
  without being an interface: identical underlying types, at most one of
  them named, and the rule for channels. -/
  directly : GoType → GoType → Bool

/-- Whether the sources fix the dynamic type of a value: native values, and
the values built by `&timeVal{...}`, `&errw{...}` and `(*goFunc)(&vr)`. -/
def GoVal.typeDeclared : GoVal → Bool
  | .dTime _ => true
  | .dErr _ => true
  | .dFunc _ _ => true
  | v => !v.isDomain

/-- Dynamic type of a value, given the declarations. -/
def GoVal.typeIn (d : Decls) (v : GoVal) : GoType :=
  if v.typeDeclared then v.typeOf else d.ownType v

/-- Kind of a handle, given the declarations. -/
def RValue.KindIn (d : Decls) (vr : RValue) : Dgo.Kind :=
  match vr.val with
  | none => .Invalid
  | some v => (v.typeIn d).kind

/-- A `reflect.Value` taken as a destination: the handle and whether it is
addressable (`flagAddr`), which only `Set` looks at. -/
structure Slot where
  rv : RValue
  addressable : Bool

/-- The method `Elem` of a pointer handle, given the declarations: the
pointee is addressable; the pointee of a nil pointer is the zero handle. -/
def RValue.ElemSlot (d : Decls) (h : Heap) (vr : RValue) : Slot :=
  let e : RValue :=
    match vr.val with
    | none => vr.Elem h
    | some v => if v.typeDeclared then vr.Elem h else ⟨d.ownElem v, vr.ro⟩
  ⟨e, e.IsValid⟩

/-- The method `t.AssignableTo(T)` of `reflect.Type`, for the type `t` of
the value `w` (for a storage location of interface type, that interface
type): the types are identical, or `T` is an interface type and `t` has its
methods, or `t` is directly assignable to `T`.  An interface type with fewer
methods than `T` does not have the methods of `T`; a value that is not a
storage location of interface type has the methods of `dgo.Value` when it
satisfies the value contract. -/
def AssignableTo (d : Decls) (w : GoVal) (T : GoType) : Bool :=
  let t := w.typeIn d
  if t == T then true
  else
    match T with
    | .iface nm id =>
      if nm == 0 then true
      else
        match w with
        | .iface nmw _ _ => decide (nm ≤ nmw) && d.implements t id
        | _ => if T == reflectValueType then w.implValue else d.implements t id
    | _ => d.directly t T

/-- What `ReflectTo` does with its destination: it calls the source's own
`ReflectTo(dest)`, whose body is outside `value.go`, or `dest.Set` stores the
source in the destination. -/
inductive Projection
  | delegated (src : GoVal) (dest : Slot)
  | assigned (dest : Slot) (src : GoVal)

/-- The panics of package reflect that the projection can run into. -/
inductive ReflectPanic
  /-- Call of `reflect.Value.Type` on zero Value. -/
  | typeOfZero
  /-- Call of `reflect.Value.Set` on zero Value: the destination or the
  value to store is the zero handle. -/
  | setOfZero
  /-- `reflect.Value.Set` using value obtained using unexported field. -/
  | setReadOnly
  /-- `reflect.Value.Set` using unaddressable value. -/
  | setUnaddressable
  /-- `reflect.Set`: value of type `V` is not assignable to type `T`. -/
  | setNotAssignable (V T : GoType)

/-- Outcome of a projection: what was done, a panic raised by `value.go`
with its message, or a panic of package reflect. -/
inductive Projected
  | done (p : Projection)
  | failed (msg : String)
  | reflect (p : ReflectPanic)

/-- Message of the panic of `FromValue`. -/
def notPointerMessage : String := "destination is not a pointer"

/-- The method `dest.Set(x)` of `reflect.Value`: the destination has to be
valid, not read-only and addressable, `x` valid and not read-only, and the
type of `x` assignable to the type of the destination. -/
def Slot.Set (d : Decls) (dest : Slot) (x : RValue) : Projected :=
  match dest.rv.val with
  | none => .reflect .setOfZero
  | some w =>
    if dest.rv.ro then .reflect .setReadOnly
    else if !dest.addressable then .reflect .setUnaddressable
    else
      match x.val with
      | none => .reflect .setOfZero
      | some v =>
        if x.ro then .reflect .setReadOnly
        else if AssignableTo d v (w.typeIn d) then .done (.assigned dest v)
        else .reflect (.setNotAssignable (v.typeIn d) (w.typeIn d))

/-- The function `ReflectTo`. -/
def ReflectTo (d : Decls) (src : Iface) (dest : Slot) : Projected :=
  match dest.rv.val with
  | none => .reflect .typeOfZero
  | some w =>
    let rv : Option GoVal :=
      if !AssignableTo d w reflectValueType then
        match src with
        | some v => if d.offers v then some v else none
        | none => none
      else none
    match rv with
    | some v => .done (.delegated v dest)
    | none => dest.Set d (RValue.ValueOf src)

/-- The function `FromValue`. -/
def FromValue (d : Decls) (h : Heap) (src : Iface) (dest : Iface) : Projected :=
  let dp := RValue.ValueOf dest
  if Kind.Ptr != dp.KindIn d then .failed notPointerMessage
  else ReflectTo d src (dp.ElemSlot d h)

/-- Following the words of the claim: a destination that can hold a
`dgo.Value` directly is one of type `dgo.Value` or of the empty interface
type. -/
def canHoldValue (t : GoType) : Bool :=
  t == reflectValueType ||
    (match t with
     | .iface 0 _ => true
     | _ => false)

/-- The interface type `dgo.Number`, which includes the methods of
`dgo.Value`; its declaration is not part of the sources. -/
def numberType : GoType := .iface 9 7

/-- Declarations for concrete runs: every value offers its own projection,
the values built outside the sources are of one struct type, `dgo.Number` has
the methods of `dgo.Value`, and integer values have those of `dgo.Number`. -/
def sampleDecls : Decls where
  offers := fun _ => true
  ownType := fun _ => .struct 0
  ownElem := fun _ => none
  implements := fun t id => (t == numberType && id == 1) || (t == .struct 0 && id == 7)
  directly := fun _ _ => false

/-- The same declarations with no value offering its own projection. -/
def plainDecls : Decls := { sampleDecls with offers := fun _ => false }

/-- An addressable destination of type `interface{}`, holding nil. -/
def emptySlot : Slot := ⟨⟨some (.iface 0 0 none), false⟩, true⟩

/-- An addressable destination of type `dgo.Value`, holding nil. -/
def valueSlot : Slot := ⟨⟨some (.iface 4 1 none), false⟩, true⟩

/-- An addressable destination of type `dgo.Number`, holding nil. -/
def numberSlot : Slot := ⟨⟨some (.iface 9 7 none), false⟩, true⟩

/-- An addressable destination of type `int`. -/
def intSlot : Slot := ⟨⟨some (.int .int none 0), false⟩, true⟩

/-! ## Types of the engine, violations and generic widening

Nothing of what follows is part of the sources: the tests
`typeerror_test.go` and `utils_test.go` call it.  The definitions follow the
specification (sections 4.5 and 4.6) and the renderings that the tests
print. -/

/-- Modelled from the spec: the values that the tests capture in a
violation or list in a literal sequence: integers (`vf.Int64(3)`) and
strings (`vf.String("b")`). -/
inductive Lit
  | int (i : Int)
  | str (s : String)
  deriving DecidableEq

/-- Modelled from the spec: types without a nested type: the unconstrained
`any`, `int` and `string`, the size-constrained string `tf.String(min, max)`,
and the exact type of one literal value. -/
inductive Scalar
  | any
  | integer
  | string
  | sizedString (min max : Nat)
  | exact (v : Lit)
  deriving DecidableEq

/-- Modelled from the spec: the type variants of the engine that the
specification and the tests name: scalar types, sequences with an element
type (unconstrained, or with length bounds), the type of a literal sequence
(`vf.Strings("hello", "world").Type()`), mappings, and the struct-shaped
mapping type (`tf.ParseType("{a:string}")`). -/
inductive Ty
  | scalar (s : Scalar)
  | array (elem : Ty)
  | sizedArray (elem : Ty) (min max : Nat)
  | exactArray (elems : List Lit)
  | map (key value : Ty)
  | structMap (fields : List (String × Scalar))
  deriving DecidableEq

/-- Modelled from the spec: `typ.String`. -/
def Ty.string : Ty := .scalar .string

/-- Modelled from the spec: rendering of a string in double quotes. -/
def quote (s : String) : String := "\"" ++ s ++ "\""

/-- Modelled from the spec: rendering of a value: an integer in decimal,
a string in double quotes. -/
def Lit.render : Lit → String
  | .int i => toString i
  | .str s => quote s

/-- Modelled from the spec: rendering of an element of a literal sequence,
a string without quotes (`[hello world]`). -/
def Lit.plain : Lit → String
  | .int i => toString i
  | .str s => s

/-- Modelled from the spec: rendering of a scalar type. -/
def Scalar.render : Scalar → String
  | .any => "any"
  | .integer => "int"
  | .string => "string"
  | .sizedString min max => "string[" ++ toString min ++ "," ++ toString max ++ "]"
  | .exact v => v.render

/-- Modelled from the spec: rendering of a type, as the tests print it:
`string`, `string[1,10]`, `[hello world]`, `[]string`, `{"a":string}`. -/
def Ty.render : Ty → String
  | .scalar s => s.render
  | .array e => "[]" ++ e.render
  | .sizedArray e min max => "[" ++ toString min ++ "," ++ toString max ++ "]" ++ e.render
  | .exactArray elems => "[" ++ " ".intercalate (elems.map Lit.plain) ++ "]"
  | .map k v => "map[" ++ k.render ++ "]" ++ v.render
  | .structMap fields =>
    "\x7b" ++ ",".intercalate (fields.map fun f => quote f.1 ++ ":" ++ f.2.render) ++ "\x7d"

/-- Modelled from the spec: the three violation errors of section 4.5 with
the fields each captures; the value of an assignment violation may be
absent. -/
inductive Violation
  | assignment (type : Ty) (value : Option Lit)
  | size (type : Ty) (attempted : Int)
  | mapKey (type : Ty) (key : Lit)
  deriving DecidableEq

/-- Modelled from the spec: `tf.IllegalAssignment`, the constructor of the
assignment violation.  Construction is a total function. -/
def IllegalAssignment (t : Ty) (v : Option Lit) : Violation := .assignment t v

/-- Modelled from the spec: `tf.IllegalSize`, the constructor of the size
violation. -/
def IllegalSize (t : Ty) (size : Int) : Violation := .size t size

/-- Modelled from the spec: `tf.IllegalMapKey`, the constructor of the
map-key violation. -/
def IllegalMapKey (t : Ty) (key : Lit) : Violation := .mapKey t key

/-- Modelled from the spec: what a violation can be compared with: another
violation, or a value that is not one (such as the string `oops`). -/
inductive Operand
  | violation (e : Violation)
  | other (v : Lit)

/-- Modelled from the spec: equality of violations (section 4.5): two
violations of the same kind are equal iff their captured fields are equal; a
violation is never equal to a non-violation value. -/
def Violation.Equals : Violation → Operand → Bool
  | .assignment t v, .violation (.assignment t2 v2) => t == t2 && v == v2
  | .size t n, .violation (.size t2 n2) => t == t2 && n == n2
  | .mapKey t k, .violation (.mapKey t2 k2) => t == t2 && k == k2
  | _, _ => false

/-- Modelled from the spec: the parts of a message template of section 4.5:
fixed text and the placeholders `<value>`, `<type>`, `<size>`, `<key>`. -/
inductive Piece
  | text (s : String)
  | value
  | type
  | size
  | key

/-- Modelled from the spec: the message templates of the table of section
4.5, by kind of violation. -/
def Violation.template : Violation → List Piece
  | .assignment _ _ => [.value, .text " cannot be assigned to a variable of type ", .type]
  | .size _ _ =>
    [.text "size constraint violation on type ", .type, .text " when attempting resize to ", .size]
  | .mapKey _ _ => [.text "key ", .key, .text " cannot be added to type ", .type]

/-- Modelled from the spec: the type captured by a violation. -/
def Violation.type : Violation → Ty
  | .assignment t _ => t
  | .size t _ => t
  | .mapKey t _ => t

/-- Modelled from the spec: what a placeholder stands for in a violation.
An absent value renders as the word `nil`, a present one as `the value`
followed by its rendering. -/
def Violation.fill (e : Violation) : Piece → String
  | .text s => s
  | .type => e.type.render
  | .value =>
    match e with
    | .assignment _ (some v) => "the value " ++ v.render
    | .assignment _ none => "nil"
    | _ => ""
  | .size =>
    match e with
    | .size _ n => toString n
    | _ => ""
  | .key =>
    match e with
    | .mapKey _ k => k.render
    | _ => ""

/-- Modelled from the spec: `Error`, the message of a violation: its
template with the placeholders filled in. -/
def Violation.Error (e : Violation) : String :=
  String.join (e.template.map e.fill)

/-- Modelled from the spec: the unconstrained type of a literal value. -/
def Lit.type : Lit → Scalar
  | .int _ => .integer
  | .str _ => .string

/-- Modelled from the spec: generic widening of a scalar type: the exact
value and the size constraint are dropped. -/
def Scalar.Generic : Scalar → Scalar
  | .any => .any
  | .integer => .integer
  | .string => .string
  | .sizedString _ _ => .string
  | .exact v => v.type

/-- Modelled from the spec: the element type of a literal sequence: the
unconstrained type that its elements share, `any` when they share none. -/
def elementType : List Lit → Scalar
  | [] => .any
  | l :: ls => if ls.all (fun x => x.type == l.type) then l.type else .any

/-- Modelled from the spec: `typ.Generic` (section 4.6): the most general
declared type subsuming the family of a type.  A literal sequence collapses
to the unconstrained sequence of its element type, length bounds are
dropped, and nested types are widened as well. -/
def Generic : Ty → Ty
  | .scalar s => .scalar s.Generic
  | .array e => .array (Generic e)
  | .sizedArray e _ _ => .array (Generic e)
  | .exactArray elems => .array (.scalar (elementType elems))
  | .map k v => .map (Generic k) (Generic v)
  | .structMap fields => .structMap (fields.map fun f => (f.1, f.2.Generic))

/-- Whether a scalar type carries neither an exact value nor a size
constraint. -/
def Scalar.isGeneric : Scalar → Bool
  | .sizedString _ _ => false
  | .exact _ => false
  | _ => true

/-- Whether a type carries no exact value, literal sequence or size
constraint anywhere. -/
def Ty.isGeneric : Ty → Bool
  | .scalar s => s.isGeneric
  | .array e => e.isGeneric
  | .sizedArray _ _ _ => false
  | .exactArray _ => false
  | .map k v => k.isGeneric && v.isGeneric
  | .structMap fields => fields.all fun f => f.2.isGeneric

/-- The type of the literal sequence `vf.Strings("hello", "world")`. -/
def helloWorld : Ty := .exactArray [.str "hello", .str "world"]

/-- The struct-shaped mapping type `{a:string}`. -/
def structA : Ty := .structMap [("a", .string)]

/-! ## Results of realization satisfy the value contract -/

theorem FromJSONNumber_isValue (s : String) (r : Iface)
    (hr : FromJSONNumber s = .ok r) : isValue r = true := by
  unfold FromJSONNumber at hr
  cases hi : (Strconv.ParseInt s 10).err with
  | none =>
    simp [hi] at hr
    subst hr
    simp [isValue, GoVal.implValue, GoVal.isDomain]
  | some e =>
    cases hf : (Strconv.ParseFloat s).err with
    | none =>
      by_cases he : e = .rangeErr
      · cases hu : (Strconv.ParseUint s 0).err <;> simp [hi, he, hu, hf] at hr <;>
          subst hr <;> simp [isValue, GoVal.implValue, GoVal.isDomain]
      · simp [hi, he, hf] at hr
        subst hr
        simp [isValue, GoVal.implValue, GoVal.isDomain]
    | some e2 =>
      by_cases he : e = .rangeErr
      · cases hu : (Strconv.ParseUint s 0).err <;> simp [hi, he, hu, hf] at hr
        subst hr
        simp [isValue, GoVal.implValue, GoVal.isDomain]
      · simp [hi, he, hf] at hr

theorem valueWith_isValue (env : Env) (h : Heap) (vfr : RValue → Bool → Res Iface)
    (hv : ∀ vr f r, vfr vr f = .ok r → isValue r = true)
    (v : Iface) (frozen : Bool) (r : GoVal)
    (hr : valueWith env h vfr v frozen = .ok (some r)) : r.implValue = true := by
  unfold valueWith at hr
  split at hr
  all_goals first
    | (cases hr; simp [GoVal.implValue, GoVal.isDomain])
    | skip
  · split at hr
    · cases hr
    · split at hr
      · cases hr; simp [GoVal.implValue, GoVal.isDomain]
      · cases hr
  · split at hr
    · cases hr; simp [GoVal.implValue, GoVal.isDomain]
    · split at hr
      · exact FromJSONNumber_isValue _ _ hr
      · exact hv _ _ _ hr
      · split at hr
        · cases hr; simp [GoVal.implValue, GoVal.isDomain]
        · split at hr
          · cases hr; simp [GoVal.implValue, GoVal.isDomain]
          · split at hr
            · cases hr; simp [GoVal.implValue, GoVal.isDomain]
            · cases hr

theorem ArrayFromReflected_isValue (rec : RValue → Bool → Res Iface) (h : Heap)
    (vr : RValue) (f : Bool) (r : Iface)
    (hr : ArrayFromReflected rec h vr f = .ok r) : isValue r = true := by
  unfold ArrayFromReflected at hr
  split at hr
  · cases hr; simp [isValue, GoVal.implValue, GoVal.isDomain]
  · cases hr
  · cases hr

theorem FromReflectedMap_isValue (rec : RValue → Bool → Res Iface) (h : Heap)
    (vr : RValue) (f : Bool) (r : Iface)
    (hr : FromReflectedMap rec h vr f = .ok r) : isValue r = true := by
  unfold FromReflectedMap at hr
  split at hr
  · cases hr; simp [isValue, GoVal.implValue, GoVal.isDomain]
  · cases hr
  · cases hr

theorem ValueFromReflected_isValue (env : Env) (h : Heap) :
    ∀ (n : Nat) (vr : RValue) (f : Bool) (r : Iface),
      ValueFromReflected env h n vr f = .ok r → isValue r = true
  | 0, vr, f, r, hr => by simp [ValueFromReflected] at hr
  | n + 1, vr, f, r, hr => by
    have ih := ValueFromReflected_isValue env h n
    rw [ValueFromReflected] at hr
    generalize hw : valueWith env h (ValueFromReflected env h n) vr.Interface f = w at hr
    split at hr
    · cases hr; simp [isValue, GoVal.implValue, GoVal.isDomain]
    · split at hr
      · exact ArrayFromReflected_isValue _ _ _ _ _ hr
      · exact FromReflectedMap_isValue _ _ _ _ _ hr
      · split at hr
        · exact ih _ _ _ hr
        · split at hr
          · cases hr; simp [isValue, GoVal.implValue, GoVal.isDomain]
          · split at hr
            · cases hr; simp [isValue, GoVal.implValue, GoVal.isDomain]
            · simp only at hr
              split at hr
              · rename_i r0 hd
                subst hr
                split at hd
                · split at hd
                  · cases hd; assumption
                  · rw [hw] at hd
                    cases w with
                    | ok x =>
                      cases x with
                      | none => simp at hd
                      | some y =>
                        simp at hd
                        subst hd
                        exact valueWith_isValue env h _ ih _ _ _ hw
                    | panic p => simp at hd
                    | outOfFuel => simp at hd
                · cases hd
              · split at hr
                · exact ih _ _ _ hr
                · cases hr; simp [isValue, GoVal.implValue, GoVal.isDomain]

/-! ## Value: identity on realized values -/

/-- C1: for every input that already implements `dgo.Value`, `Value` returns
that input itself; consequently, whenever `Value(x)` returns `r`, `Value(r)`
returns `r` again (at any fuel). -/
theorem Value_identity (env : Env) (h : Heap) (fuel : Nat) :
    (∀ v : Iface, isValue v = true → Value env h fuel v = .ok v) ∧
    (∀ (x r : Iface) (fuel2 : Nat),
      Value env h fuel x = .ok r → Value env h fuel2 r = .ok r) := by
  have h1 : ∀ (n : Nat) (v : Iface), isValue v = true → Value env h n v = .ok v := by
    intro n v hv
    simp [Value, hv]
  refine ⟨h1 fuel, ?_⟩
  intro x r fuel2 hx
  apply h1
  unfold Value at hx
  split at hx
  · cases hx; assumption
  · generalize hw : value env h fuel x false = w at hx
    cases w with
    | ok y =>
      cases y with
      | none => exact ValueFromReflected_isValue env h _ _ _ _ hx
      | some z =>
        simp at hx
        subst hx
        exact valueWith_isValue env h _ (ValueFromReflected_isValue env h fuel) _ _ _ hw
    | panic p => simp at hx
    | outOfFuel => simp at hx

/-- A run of C1: the integer 3 is realized as the integer value 3, and
realizing that value again gives it back. -/
theorem Value_identity_witness :
    Value sampleEnv emptyHeap 1 (some (.dInt 3)) = .ok (some (.dInt 3)) ∧
    Value sampleEnv emptyHeap 7 (some (.dInt 3)) = .ok (some (.dInt 3)) :=
  ⟨(Value_identity sampleEnv emptyHeap 1).1 _ rfl,
   (Value_identity sampleEnv emptyHeap 1).2 (some (.int .int none 3)) _ 7 rfl⟩

/-! ## Value: nil pointers -/

/-- C2: at the nil pointer of type `*time.Time` the call `Value(p)` ends in a
nil pointer dereference (the fast path copies `*v`), for every fuel, whereas
`ValueFromReflected(reflect.ValueOf(p), frozen)` returns the nil value. -/
theorem Value_nil_time_pointer (env : Env) (h : Heap) (fuel : Nat) (frozen : Bool) :
    Value env h fuel (some nilTimePtr) = .panic .nilDereference ∧
    ValueFromReflected env h (fuel + 1) (RValue.ValueOf (some nilTimePtr)) frozen
      = .ok (some .dNil) := by
  constructor
  · rfl
  · rfl

/-- C3: the realization engine fails on a well-formed input: for the nil
pointer of type `*time.Time`, `Value` neither returns a value nor runs on,
it panics, whatever the fuel. -/
theorem Value_panics_on_nil_time_pointer (env : Env) (h : Heap) (fuel : Nat) :
    (Value env h fuel (some nilTimePtr)).panics = true ∧
    (Value env h fuel (some nilTimePtr)).returns = false := by
  constructor <;> rfl

/-! ## FromJSONNumber -/

/-- The binary logarithm of a number between two powers of two. -/
theorem log2_of_bounds (n k : Nat) (h1 : 2 ^ k ≤ n) (h2 : n < 2 ^ (k + 1)) :
    Nat.log2 n = k := by
  have hn : n ≠ 0 := by
    intro h0
    subst h0
    simp at h1
  rw [Nat.log2_eq_log_two]
  exact (Nat.log_eq_iff (Or.inr ⟨by decide, hn⟩)).mpr ⟨h1, h2⟩

/-- The float nearest to 2^63 is 2^63. -/
theorem toF64_two_pow_63 :
    Strconv.toF64 false 9223372036854775808 1 = ⟨⟨0x43E0000000000000⟩, none⟩ := by
  have hl1 : Nat.log2 9223372036854775808 = 63 :=
    log2_of_bounds _ _ (by norm_num) (by norm_num)
  have hl2 : Nat.log2 1 = 0 := log2_of_bounds _ _ (by norm_num) (by norm_num)
  have hf : Strconv.floorLog2 9223372036854775808 1 = 63 := by
    simp only [Strconv.floorLog2, Strconv.geTwoPow, hl1, hl2]
    decide
  simp only [Strconv.toF64, hf, Strconv.roundHalfEven]
  decide

/-- The float nearest to 10^21. -/
theorem toF64_ten_pow_21 :
    Strconv.toF64 false 1000000000000000000000 1 = ⟨⟨0x444B1AE4D6E2EF50⟩, none⟩ := by
  have hl1 : Nat.log2 1000000000000000000000 = 69 :=
    log2_of_bounds _ _ (by norm_num) (by norm_num)
  have hl2 : Nat.log2 1 = 0 := log2_of_bounds _ _ (by norm_num) (by norm_num)
  have hf : Strconv.floorLog2 1000000000000000000000 1 = 69 := by
    simp only [Strconv.floorLog2, Strconv.geTwoPow, hl1, hl2]
    decide
  simp only [Strconv.toF64, hf, Strconv.roundHalfEven]
  decide

/-- The float parse of the token `09223372036854775808`. -/
theorem ParseFloat_leading_zero_63 :
    Strconv.ParseFloat "09223372036854775808" = ⟨⟨0x43E0000000000000⟩, none⟩ := by
  have hs : Strconv.special (Strconv.codes "09223372036854775808") = none := by decide!
  have hr : Strconv.readFloat (Strconv.codes "09223372036854775808")
      = some ⟨false, 9223372036854775808, 0, false, false, []⟩ := by decide!
  simp only [Strconv.ParseFloat, hs, hr]
  simpa using toF64_two_pow_63

/-- The float parse of the token `01000000000000000000000`. -/
theorem ParseFloat_leading_zero_21 :
    Strconv.ParseFloat "01000000000000000000000" = ⟨⟨0x444B1AE4D6E2EF50⟩, none⟩ := by
  have hs : Strconv.special (Strconv.codes "01000000000000000000000") = none := by decide!
  have hr : Strconv.readFloat (Strconv.codes "01000000000000000000000")
      = some ⟨false, 1000000000000000000000, 0, false, false, []⟩ := by decide!
  simp only [Strconv.ParseFloat, hs, hr]
  simpa using toF64_ten_pow_21

/-- On a token that the unsigned parse reads alike in base 0 and in base
10, `FromJSONNumber` follows the order of the three parses. -/
theorem FromJSONNumber_order_of_same_base (s : String)
    (hb : Strconv.ParseUint s 0 = Strconv.ParseUint s 10) :
    FromJSONNumber s = orderOfParses s := by
  unfold FromJSONNumber orderOfParses
  rw [hb]
  cases hi : (Strconv.ParseInt s 10).err with
  | none => simp [hi]
  | some e =>
    by_cases he : e = .rangeErr
    · cases hu : (Strconv.ParseUint s 10).err <;>
        cases hf : (Strconv.ParseFloat s).err <;> simp [hi, hf, hu, he]
    · cases hf : (Strconv.ParseFloat s).err <;> simp [hi, hf, he]

/-- After a range overflow of the signed parse and a failure of the unsigned
parse of the code, `FromJSONNumber` returns the float that the token parses
as. -/
theorem FromJSONNumber_float_after_overflow (s : String) (e : Strconv.NumErr) (f : F64)
    (hi : (Strconv.ParseInt s 10).err = some .rangeErr)
    (hu : (Strconv.ParseUint s 0).err = some e)
    (hf : Strconv.ParseFloat s = ⟨f, none⟩) :
    FromJSONNumber s = .ok (some (.dFloat f)) := by
  unfold FromJSONNumber
  simp [hi, hu, hf]

/-- After a range overflow of the signed parse, `FromJSONNumber` returns the
unsigned integer that its base-0 parse reads. -/
theorem FromJSONNumber_unsigned_after_overflow (s : String) (u : Nat)
    (hi : (Strconv.ParseInt s 10).err = some .rangeErr)
    (hu : Strconv.ParseUint s 0 = ⟨u, none⟩) :
    FromJSONNumber s = .ok (some (.dUint64 u)) := by
  unfold FromJSONNumber
  simp [hi, hu]

/-- The order of the claim after a range overflow of the signed parse: the
unsigned integer that the token denotes. -/
theorem orderOfParses_unsigned (s : String) (u : Nat)
    (hi : (Strconv.ParseInt s 10).err = some .rangeErr)
    (hu : Strconv.ParseUint s 10 = ⟨u, none⟩) :
    orderOfParses s = .ok (some (.dUint64 u)) := by
  unfold orderOfParses
  simp [hi, hu]

/-- The order of the claim after a range overflow of the signed parse and a
failure of the unsigned parse: the float that the token parses as. -/
theorem orderOfParses_float (s : String) (e : Strconv.NumErr) (f : F64)
    (hi : (Strconv.ParseInt s 10).err = some .rangeErr)
    (hu : (Strconv.ParseUint s 10).err = some e)
    (hf : Strconv.ParseFloat s = ⟨f, none⟩) :
    orderOfParses s = .ok (some (.dFloat f)) := by
  unfold orderOfParses
  simp [hi, hu, hf]

/-- C4: on tokens with a leading zero the code leaves the order of the
claim.  For `09223372036854775808` the signed parse overflows and the token
parses as the unsigned integer 2^63, but the unsigned parse of the code, in
base 0, rejects the octal digits and the result is a float.  For
`01000000000000000000000` the signed and the unsigned parse overflow and the
token parses as a float, but the code returns the unsigned integer 2^63 that
base 0 reads from the octal digits.  Wherever base 0 and base 10 read the
token alike, the code follows the order of the claim. -/
theorem FromJSONNumber_order_leading_zero :
    ((Strconv.ParseInt "09223372036854775808" 10).err = some .rangeErr ∧
      Strconv.ParseUint "09223372036854775808" 10 = ⟨2 ^ 63, none⟩ ∧
      (Strconv.ParseUint "09223372036854775808" 0).err = some .syntaxErr ∧
      orderOfParses "09223372036854775808" = .ok (some (.dUint64 (2 ^ 63))) ∧
      FromJSONNumber "09223372036854775808" = .ok (some (.dFloat ⟨0x43E0000000000000⟩))) ∧
    ((Strconv.ParseInt "01000000000000000000000" 10).err = some .rangeErr ∧
      (Strconv.ParseUint "01000000000000000000000" 10).err = some .rangeErr ∧
      Strconv.ParseFloat "01000000000000000000000" = ⟨⟨0x444B1AE4D6E2EF50⟩, none⟩ ∧
      orderOfParses "01000000000000000000000" = .ok (some (.dFloat ⟨0x444B1AE4D6E2EF50⟩)) ∧
      FromJSONNumber "01000000000000000000000" = .ok (some (.dUint64 (2 ^ 63)))) ∧
    (∀ s : String, Strconv.ParseUint s 0 = Strconv.ParseUint s 10 →
      FromJSONNumber s = orderOfParses s) ∧
    (Strconv.ParseUint "18446744073709551615" 0 = Strconv.ParseUint "18446744073709551615" 10 ∧
      FromJSONNumber "18446744073709551615" = .ok (some (.dUint64 18446744073709551615))) := by
  have a1 : (Strconv.ParseInt "09223372036854775808" 10).err = some .rangeErr := by decide!
  have a2 : Strconv.ParseUint "09223372036854775808" 10 = ⟨2 ^ 63, none⟩ := by decide!
  have a3 : (Strconv.ParseUint "09223372036854775808" 0).err = some .syntaxErr := by decide!
  have a4 := ParseFloat_leading_zero_63
  have b1 : (Strconv.ParseInt "01000000000000000000000" 10).err = some .rangeErr := by decide!
  have b2 : (Strconv.ParseUint "01000000000000000000000" 10).err = some .rangeErr := by decide!
  have b3 := ParseFloat_leading_zero_21
  have b4 : Strconv.ParseUint "01000000000000000000000" 0 = ⟨2 ^ 63, none⟩ := by decide!
  have c1 : Strconv.ParseUint "18446744073709551615" 0
      = Strconv.ParseUint "18446744073709551615" 10 := by decide!
  have c2 : (Strconv.ParseInt "18446744073709551615" 10).err = some .rangeErr := by decide!
  have c3 : Strconv.ParseUint "18446744073709551615" 0 = ⟨18446744073709551615, none⟩ := by
    decide!
  exact ⟨⟨a1, a2, a3, orderOfParses_unsigned _ _ a1 a2,
      FromJSONNumber_float_after_overflow _ _ _ a1 a3 a4⟩,
    ⟨b1, b2, b3, orderOfParses_float _ _ _ b1 b2 b3,
      FromJSONNumber_unsigned_after_overflow _ _ b1 b4⟩,
    FromJSONNumber_order_of_same_base,
    ⟨c1, FromJSONNumber_unsigned_after_overflow _ _ c2 c3⟩⟩

/-! ## New -/

/-- C5: for a type that supplies a construction strategy `nt`, `New(T, a)` is
`nt.New(a)` for every argument, whatever the argument is and whatever the
instance predicate says about it. -/
theorem New_factory (typ : DType) (nt : Iface → Res Iface) (a : Iface)
    (hf : typ.factory = some nt) : New typ a = nt a := by
  simp [New, hf]

/-- A run of C5: an argument list of two elements, neither unwrapped nor
checked, goes to the strategy. -/
theorem New_factory_witness :
    New factoryType (some (.dArguments [.dInt 1, .dInt 2])) = .ok (some (.dString "made")) :=
  New_factory factoryType (fun _ => .ok (some (.dString "made")))
    (some (.dArguments [.dInt 1, .dInt 2])) rfl

/-- C6: for a type without a construction strategy and an argument list whose
length is not one, `New` panics, whatever the instance predicate says. -/
theorem New_arity (typ : DType) (args : List GoVal)
    (hf : typ.factory = none) (hl : args.length ≠ 1) :
    New typ (some (.dArguments args)) = .panic (.newFromArguments typ.id args) ∧
    (New typ (some (.dArguments args))).panics = true ∧
    (New typ (some (.dArguments args))).returns = false := by
  have h : New typ (some (.dArguments args)) = .panic (.newFromArguments typ.id args) := by
    simp [New, hf, asArguments, hl]
  simp [h, Res.panics, Res.returns]

/-- A run of C6: the empty argument list, for a type of which that list is
an instance. -/
theorem New_arity_witness :
    anyType.Instance (some (.dArguments [])) = true ∧
    New anyType (some (.dArguments [])) = .panic (.newFromArguments 1 []) :=
  ⟨rfl, (New_arity anyType [] rfl (by decide)).1⟩

/-- C7: for a type without a construction strategy, with `b` the single
element of an argument list of length one, or the argument itself when it is
not an argument list: `New` returns `b` when the instance predicate holds of
`b` and panics otherwise; and whatever `New` returns is an instance. -/
theorem New_instance (typ : DType) (a : Iface) (hf : typ.factory = none) :
    (∀ e : GoVal, a = some (.dArguments [e]) →
      New typ a = if typ.Instance (some e) then .ok (some e)
                  else .panic (.newFrom typ.id (some e))) ∧
    (asArguments a = none →
      New typ a = if typ.Instance a then .ok a else .panic (.newFrom typ.id a)) ∧
    (∀ v : Iface, New typ a = .ok v → typ.Instance v = true) := by
  refine ⟨?_, ?_, ?_⟩
  · intro e he
    subst he
    simp [New, hf, asArguments]
  · intro hn
    simp [New, hf, hn]
  · intro v hv
    unfold New at hv
    simp only [hf] at hv
    cases ha : asArguments a with
    | none =>
      simp only [ha] at hv
      split at hv
      · cases hv; assumption
      · cases hv
    | some args =>
      simp only [ha] at hv
      by_cases hl : args.length = 1
      · simp only [hl, bne_self_eq_false, Bool.false_eq_true, if_false] at hv
        split at hv
        · cases hv; assumption
        · cases hv
      · simp [hl] at hv

/-- A run of C7: a one-element argument list is unwrapped and its element
returned, a bare instance is returned as it is. -/
theorem New_instance_witness :
    New integerType (some (.dArguments [.dInt 5])) = .ok (some (.dInt 5)) ∧
    New integerType (some (.dInt 5)) = .ok (some (.dInt 5)) :=
  ⟨(New_instance integerType (some (.dArguments [.dInt 5])) rfl).1 (.dInt 5) rfl,
   (New_instance integerType (some (.dInt 5)) rfl).2.1 rfl⟩

/-! ## value: fast paths before numeric coercion -/

theorem valueWith_default (env : Env) (h : Heap) (vfr : RValue → Bool → Res Iface)
    (x : GoVal) (frozen : Bool) (hm : matchesFastPath (some x) = false) :
    valueWith env h vfr (some x) frozen = coerce env x := by
  unfold matchesFastPath at hm
  unfold valueWith coerce
  split at hm <;> first
    | (exfalso; cases hm)
    | skip
  rename_i h1 h2 h3 h4 h5 h6 h7 h8 h9 h10 h11 h12 h13 h14 h15 heq0
  cases heq0
  simp only [Bool.or_eq_false_iff] at hm
  split
  all_goals first
    | (exfalso; rename_i heq; exact Option.noConfusion heq)
    | (exfalso; rename_i heq; injection heq with heq
       first
         | exact h1 _ heq | exact h2 _ heq | exact h3 _ heq | exact h4 _ heq
         | exact h5 _ heq | exact h6 _ heq | exact h7 _ heq | exact h8 _ heq
         | exact h9 _ heq | exact h10 _ heq | exact h11 _ heq | exact h12 _ heq
         | exact h13 _ heq | exact h14 _ heq | exact h15 _ _ heq)
    | skip
  rename_i heq
  cases heq
  rw [if_neg (by simp [hm.1])]
  split
  · exact (h14 _ rfl).elim
  · exact (h15 _ _ rfl).elim
  · rw [if_neg (by simp [hm.2])]

theorem valueWith_fast (env1 env2 : Env) (h : Heap) (vfr : RValue → Bool → Res Iface)
    (v : Iface) (frozen : Bool) (hm : matchesFastPath v = true) :
    valueWith env1 h vfr v frozen = valueWith env2 h vfr v frozen := by
  unfold valueWith
  split <;> first | rfl | skip
  rename_i x h1 h2 h3 h4 h5 h6 h7 h8 h9 h10 h11 h12 h13
  split
  · rfl
  · rename_i he
    split
    · rfl
    · rfl
    · rename_i y h14 h15
      split
      · rfl
      · rename_i ht
        exfalso
        unfold matchesFastPath at hm
        split at hm
        all_goals first
          | (rename_i heq; exact Option.noConfusion heq)
          | (rename_i heq; injection heq with heq
             first
               | exact h1 _ heq | exact h2 _ heq | exact h3 _ heq | exact h4 _ heq
               | exact h5 _ heq | exact h6 _ heq | exact h7 _ heq | exact h8 _ heq
               | exact h9 _ heq | exact h10 _ heq | exact h11 _ heq | exact h12 _ heq
               | exact h13 _ heq | exact h14 _ heq | exact h15 _ _ heq)
          | skip
        rename_i heq
        cases heq
        simp [he, ht] at hm

/-- C9: `value` consults the exact-type fast paths first: on an input that
one of them matches the result does not depend on the numeric coercions; on
any other input the result is that of the integral coercion when it succeeds,
else that of the floating-point coercion when it succeeds, else nil without a
failure; and a `uint` or `uint64` is handled by the unsigned fast path
whatever the coercions are. -/
theorem value_fast_paths_first (env : Env) (h : Heap) (fuel : Nat) (frozen : Bool) :
    (∀ (v : Iface) (env2 : Env), matchesFastPath v = true →
      value env h fuel v frozen
        = valueWith env2 h (ValueFromReflected env h fuel) v frozen) ∧
    (∀ (x : GoVal), matchesFastPath (some x) = false →
      (∀ i, env.ToInt x = some i →
        value env h fuel (some x) frozen = .ok (some (.dInt i))) ∧
      (∀ f, env.ToInt x = none → env.ToFloat x = some f →
        value env h fuel (some x) frozen = .ok (some (.dFloat f))) ∧
      (env.ToInt x = none → env.ToFloat x = none →
        value env h fuel (some x) frozen = .ok none)) ∧
    (∀ i : Int,
      matchesFastPath (some (.int .uint none i)) = true ∧
      matchesFastPath (some (.int .uint64 none i)) = true ∧
      value env h fuel (some (.int .uint none i)) frozen = .ok (some (.dUnsigned i.toNat)) ∧
      value env h fuel (some (.int .uint64 none i)) frozen
        = .ok (some (.dUnsigned i.toNat))) := by
  refine ⟨?_, ?_, ?_⟩
  · intro v env2 hm
    exact valueWith_fast env env2 h _ v frozen hm
  · intro x hm
    have hd := valueWith_default env h (ValueFromReflected env h fuel) x frozen hm
    unfold value
    rw [hd]
    refine ⟨?_, ?_, ?_⟩
    · intro i hi
      simp [coerce, hi]
    · intro f hi hf
      simp [coerce, hi, hf]
    · intro hi hf
      simp [coerce, hi, hf]
  · intro i
    exact ⟨rfl, rfl, rfl, rfl⟩

/-- A run of C9: an `int32` is matched by no fast path and goes through the
integral coercion, a `float32` through the floating-point one, a channel
through neither; a `uint64` takes the unsigned fast path. -/
theorem value_fast_paths_first_witness :
    value sampleEnv emptyHeap 0 (some (.int .int32 none 7)) false = .ok (some (.dInt 7)) ∧
    value sampleEnv emptyHeap 0 (some (.float .float32 none ⟨0⟩)) false
      = .ok (some (.dFloat ⟨0⟩)) ∧
    value sampleEnv emptyHeap 0 (some (.other .chan 0 none 0)) false = .ok none ∧
    value sampleEnv emptyHeap 0 (some (.int .uint64 none 7)) false
      = .ok (some (.dUnsigned 7)) :=
  ⟨((value_fast_paths_first sampleEnv emptyHeap 0 false).2.1
      (.int .int32 none 7) rfl).1 7 rfl,
   ((value_fast_paths_first sampleEnv emptyHeap 0 false).2.1
      (.float .float32 none ⟨0⟩) rfl).2.1 ⟨0⟩ rfl rfl,
   ((value_fast_paths_first sampleEnv emptyHeap 0 false).2.1
      (.other .chan 0 none 0) rfl).2.2 rfl rfl,
   ((value_fast_paths_first sampleEnv emptyHeap 0 false).2.2 7).2.2.2⟩

/-! ## ValueFromReflected: identity and pointers -/

/-- C8 as stated fails: a function whose type implements `dgo.Value` is
wrapped as a callable value, and a nil pointer whose type implements
`dgo.Value` is realized as the nil value; neither handle gives back its
underlying value. -/
theorem ValueFromReflected_kind_before_identity :
    (isValue (some funcValue) = true ∧
      (RValue.ValueOf (some funcValue)).IsValid = true ∧
      ValueFromReflected sampleEnv emptyHeap 1 (RValue.ValueOf (some funcValue)) false
        ≠ .ok (some funcValue)) ∧
    (isValue (some nilValuePtr) = true ∧
      (RValue.ValueOf (some nilValuePtr)).IsValid = true ∧
      ValueFromReflected sampleEnv emptyHeap 1 (RValue.ValueOf (some nilValuePtr)) false
        ≠ .ok (some nilValuePtr)) := by
  have h1 : ValueFromReflected sampleEnv emptyHeap 1 (RValue.ValueOf (some funcValue)) false
      = .ok (some (.dFunc (some funcValue) false)) := rfl
  have h2 : ValueFromReflected sampleEnv emptyHeap 1 (RValue.ValueOf (some nilValuePtr)) false
      = .ok (some .dNil) := rfl
  refine ⟨⟨rfl, rfl, ?_⟩, ⟨rfl, rfl, ?_⟩⟩
  · rw [h1]
    intro h
    injection h with h
    injection h with h
    exact GoVal.noConfusion h
  · rw [h2]
    intro h
    injection h with h
    injection h with h
    exact GoVal.noConfusion h

/-- C8, amended: for a valid handle that can be interfaced, whose kind is
not slice, map or function, that is not of a method-less interface type and is
not a nil pointer, and whose underlying value implements `dgo.Value`,
`ValueFromReflected` returns that underlying value unchanged. -/
theorem ValueFromReflected_identity (env : Env) (h : Heap) (n : Nat) (vr : RValue)
    (frozen : Bool)
    (hvalid : vr.IsValid = true)
    (hs : vr.Kind ≠ .Slice) (hm : vr.Kind ≠ .Map) (hf : vr.Kind ≠ .Func)
    (hi : ¬ (vr.Kind = .Interface ∧ vr.NumMethod = 0))
    (hn : ¬ (vr.Kind = .Ptr ∧ vr.IsNil = true))
    (hc : vr.CanInterface = true)
    (hv : isValue vr.Interface = true) :
    ValueFromReflected env h (n + 1) vr frozen = .ok vr.Interface := by
  rw [ValueFromReflected]
  cases hk : vr.Kind <;> simp_all

/-- A run of C8: a struct whose type implements `dgo.Value` comes back
unchanged. -/
theorem ValueFromReflected_identity_witness :
    ValueFromReflected sampleEnv emptyHeap 1 (RValue.ValueOf (some structValue)) false
      = .ok (some structValue) :=
  ValueFromReflected_identity sampleEnv emptyHeap 0 (RValue.ValueOf (some structValue)) false
    rfl (by decide) (by decide) (by decide) (by decide) (by decide) rfl rfl

theorem RValue.Interface_of_ptr (vr : RValue) (hk : vr.Kind = .Ptr) :
    vr.Interface = vr.val ∧ vr.IsValid = true := by
  obtain ⟨val, ro⟩ := vr
  cases val with
  | none => simp [RValue.Kind] at hk
  | some x =>
    cases x <;> simp_all [RValue.Kind, RValue.Interface, RValue.IsValid, GoVal.typeOf, GoType.kind]

/-- C10: for a non-nil reflected pointer whose interfaced value is not a
`dgo.Value` and is matched by no fast path and by neither numeric coercion:
when the pointee is of struct kind the result is the escape-hatch wrapper
around the pointer itself, otherwise it is the result of
`ValueFromReflected` on the pointee with the same frozen flag. -/
theorem ValueFromReflected_pointer (env : Env) (h : Heap) (n : Nat) (vr : RValue)
    (frozen : Bool)
    (hk : vr.Kind = .Ptr) (hnn : vr.IsNil = false)
    (hv : isValue vr.Interface = false)
    (hm : matchesFastPath vr.Interface = false)
    (hi : ∀ x, vr.Interface = some x → env.ToInt x = none ∧ env.ToFloat x = none) :
    ((vr.Elem h).Kind = .Struct →
      ValueFromReflected env h (n + 1) vr frozen = .ok (some (.dNative vr.val vr.ro))) ∧
    ((vr.Elem h).Kind ≠ .Struct →
      ValueFromReflected env h (n + 1) vr frozen
        = ValueFromReflected env h n (vr.Elem h) frozen) := by
  have hval := (RValue.Interface_of_ptr vr hk).2
  have hw : valueWith env h (ValueFromReflected env h n) vr.Interface frozen = .ok none := by
    cases hx : vr.Interface with
    | none => rw [hx] at hm; simp [matchesFastPath] at hm
    | some x =>
      rw [hx] at hm
      rw [valueWith_default env h _ x frozen hm]
      have := hi x hx
      simp [coerce, this.1, this.2]
  have hd : ValueFromReflected env h (n + 1) vr frozen =
      if (vr.Elem h).Kind != .Struct then ValueFromReflected env h n (vr.Elem h) frozen
      else .ok (some (.dNative vr.val vr.ro)) := by
    rw [ValueFromReflected]
    by_cases hc : vr.CanInterface = true
    · simp [hval, hk, hnn, hc, hv, hw]
    · simp [hval, hk, hnn, hc]
  constructor
  · intro hs
    rw [hd]
    simp [hs]
  · intro hs
    rw [hd]
    simp [hs]

/-- A run of C10: a pointer to a struct is wrapped as it is, a pointer to an
`int` is realized as the integer it points to. -/
theorem ValueFromReflected_pointer_witness :
    ValueFromReflected sampleEnv sampleHeap 1 (RValue.ValueOf (some structPtr)) false
      = .ok (some (.dNative (some structPtr) false)) ∧
    ValueFromReflected sampleEnv sampleHeap 2 (RValue.ValueOf (some intPtr)) false
      = ValueFromReflected sampleEnv sampleHeap 1 ⟨some (.int .int none 5), false⟩ false ∧
    ValueFromReflected sampleEnv sampleHeap 1 ⟨some (.int .int none 5), false⟩ false
      = .ok (some (.dInt 5)) :=
  ⟨(ValueFromReflected_pointer sampleEnv sampleHeap 0 (RValue.ValueOf (some structPtr)) false
      rfl rfl rfl rfl (by intro x hx; cases hx; exact ⟨rfl, rfl⟩)).1 rfl,
   (ValueFromReflected_pointer sampleEnv sampleHeap 1 (RValue.ValueOf (some intPtr)) false
      rfl rfl rfl rfl (by intro x hx; cases hx; exact ⟨rfl, rfl⟩)).2 (by decide),
   rfl⟩

/-! ## FromJSONNumber: the base of the unsigned fallback -/

/-- C16: at the token `01000000000000000000000` the signed parse (base 10)
overflows and the unsigned fallback (base 0) reads the digits as octal:
`FromJSONNumber` returns the unsigned integer 2^63 although the token denotes
10^21 in base 10. -/
theorem FromJSONNumber_octal_fallback :
    (Strconv.ParseInt "01000000000000000000000" 10).err = some .rangeErr ∧
    FromJSONNumber "01000000000000000000000" = .ok (some (.dUint64 (2 ^ 63))) ∧
    decimalValue "01000000000000000000000" = some (10 ^ 21) ∧
    ((2 ^ 63 : Nat) : Int) ≠ 10 ^ 21 := by
  have hi : (Strconv.ParseInt "01000000000000000000000" 10).err = some .rangeErr := by decide!
  have hu : Strconv.ParseUint "01000000000000000000000" 0 = ⟨2 ^ 63, none⟩ := by decide!
  refine ⟨hi, ?_, by decide!, by decide⟩
  simp [FromJSONNumber, hi, hu]

/-! ## Realization never returns the nil interface -/

/-- What `Value` returns satisfies the value contract. -/
theorem Value_isValue (env : Env) (h : Heap) (fuel : Nat) (x r : Iface)
    (hx : Value env h fuel x = .ok r) : isValue r = true := by
  unfold Value at hx
  split at hx
  · cases hx; assumption
  · generalize hw : value env h fuel x false = w at hx
    cases w with
    | ok y =>
      cases y with
      | none => exact ValueFromReflected_isValue env h _ _ _ _ hx
      | some z =>
        simp at hx
        subst hx
        exact valueWith_isValue env h _ (ValueFromReflected_isValue env h fuel) _ _ _ hw
    | panic p => simp at hx
    | outOfFuel => simp at hx

/-- A value that satisfies the value contract is not the nil interface. -/
theorem isValue_ne_none (r : Iface) (hr : isValue r = true) : r ≠ none := by
  intro h
  subst h
  simp [isValue] at hr

/-- C19: whatever `Value` or `ValueFromReflected` returns is not the nil
interface, and it satisfies the value contract; the nil that `value` gives
for an input it does not match stays inside. -/
theorem realization_never_nil (env : Env) (h : Heap) (fuel : Nat) :
    (∀ (v r : Iface), Value env h fuel v = .ok r → r ≠ none ∧ isValue r = true) ∧
    (∀ (vr : RValue) (frozen : Bool) (r : Iface),
      ValueFromReflected env h fuel vr frozen = .ok r → r ≠ none ∧ isValue r = true) := by
  constructor
  · intro v r hv
    have := Value_isValue env h fuel v r hv
    exact ⟨isValue_ne_none r this, this⟩
  · intro vr frozen r hv
    have := ValueFromReflected_isValue env h fuel vr frozen r hv
    exact ⟨isValue_ne_none r this, this⟩

/-- A run of C19: for a channel `value` reports no match (nil), and `Value`
returns the escape-hatch wrapper, not nil. -/
theorem realization_never_nil_witness :
    value sampleEnv emptyHeap 1 (some chanValue) false = .ok none ∧
    Value sampleEnv emptyHeap 1 (some chanValue) = .ok (some (.dNative (some chanValue) false)) ∧
    some (GoVal.dNative (some chanValue) false) ≠ none :=
  ⟨rfl, rfl,
   ((realization_never_nil sampleEnv emptyHeap 1).1 (some chanValue) _ rfl).1⟩

/-! ## Termination of ValueFromReflected -/

/-- On the cyclic heap a call on the pointer is the call on the interface it
points to with one unit of fuel less, and the other way round. -/
theorem cyclic_step (n : Nat) :
    ValueFromReflected sampleEnv cyclicHeap (n + 1) (RValue.ValueOf (some selfPtr)) false
      = ValueFromReflected sampleEnv cyclicHeap n ⟨some (.iface 0 0 (some selfPtr)), false⟩ false
    ∧
    ValueFromReflected sampleEnv cyclicHeap (n + 1) ⟨some (.iface 0 0 (some selfPtr)), false⟩ false
      = ValueFromReflected sampleEnv cyclicHeap n (RValue.ValueOf (some selfPtr)) false :=
  ⟨rfl, rfl⟩

/-- On the cyclic heap no amount of fuel is enough. -/
theorem cyclic_diverges (n : Nat) :
    ValueFromReflected sampleEnv cyclicHeap n (RValue.ValueOf (some selfPtr)) false = .outOfFuel ∧
    ValueFromReflected sampleEnv cyclicHeap n ⟨some (.iface 0 0 (some selfPtr)), false⟩ false
      = .outOfFuel := by
  induction n with
  | zero => exact ⟨rfl, rfl⟩
  | succ n ih =>
    rw [(cyclic_step n).1, (cyclic_step n).2]
    exact ⟨ih.2, ih.1⟩

/-- Realizing a list of handles comes back when each of the calls does. -/
theorem realizeAll_ne_outOfFuel (rec : RValue → Bool → Res Iface) (frozen : Bool) :
    ∀ l : List RValue, (∀ c, c ∈ l → rec c frozen ≠ .outOfFuel) →
      realizeAll rec frozen l ≠ .outOfFuel
  | [], _ => by simp [realizeAll]
  | c :: rest, hl => by
    have h1 := hl c (by simp)
    have h2 := realizeAll_ne_outOfFuel rec frozen rest (fun d hd => hl d (by simp [hd]))
    unfold realizeAll
    cases hc : rec c frozen with
    | ok v =>
      cases hr : realizeAll rec frozen rest with
      | ok vs => simp
      | panic p => simp
      | outOfFuel => exact absurd hr h2
    | panic p => simp
    | outOfFuel => exact absurd hc h1

/-- Realizing the entries of a map comes back when each of the calls does. -/
theorem realizeEntries_ne_outOfFuel (rec : RValue → Bool → Res Iface) (frozen : Bool) :
    ∀ l : List (RValue × RValue),
      (∀ kv, kv ∈ l → rec kv.1 frozen ≠ .outOfFuel ∧ rec kv.2 frozen ≠ .outOfFuel) →
      realizeEntries rec frozen l ≠ .outOfFuel
  | [], _ => by simp [realizeEntries]
  | kv :: rest, hl => by
    have h1 := hl kv (by simp)
    have h2 := realizeEntries_ne_outOfFuel rec frozen rest (fun d hd => hl d (by simp [hd]))
    unfold realizeEntries
    cases hk : rec kv.1 frozen with
    | ok k =>
      cases hv : rec kv.2 frozen with
      | ok v =>
        cases hr : realizeEntries rec frozen rest with
        | ok vs => simp
        | panic p => simp
        | outOfFuel => exact absurd hr h2
      | panic p => simp
      | outOfFuel => exact absurd hv h1.2
    | panic p => simp
    | outOfFuel => exact absurd hk h1.1

/-- The function `FromJSONNumber` does not recurse. -/
theorem FromJSONNumber_ne_outOfFuel (s : String) : FromJSONNumber s ≠ .outOfFuel := by
  unfold FromJSONNumber
  simp only
  split
  · simp
  · split <;> simp

/-- The function `value` comes back when its call for a nested `reflect.Value`
does. -/
theorem valueWith_ne_outOfFuel (env : Env) (h : Heap) (vfr : RValue → Bool → Res Iface)
    (v : Iface) (frozen : Bool)
    (hv : ∀ a b, v = some (.reflected a b) → vfr ⟨a, b⟩ frozen ≠ .outOfFuel) :
    valueWith env h vfr v frozen ≠ .outOfFuel := by
  unfold valueWith
  split <;> first | (simp; done) | skip
  · split
    · simp
    · split <;> simp
  · split
    · simp
    · split
      · exact FromJSONNumber_ne_outOfFuel _
      · exact hv _ _ rfl
      · split
        · simp
        · split
          · simp
          · split <;> simp

/-- The body of `ValueFromReflected` on a valid handle that is neither a slice
nor a map. -/
theorem ValueFromReflected_succ_plain (env : Env) (h : Heap) (n : Nat) (vr : RValue)
    (frozen : Bool) (hvalid : vr.IsValid = true)
    (hs : vr.Kind ≠ .Slice) (hm : vr.Kind ≠ .Map) :
    ValueFromReflected env h (n + 1) vr frozen =
      if vr.Kind = .Interface ∧ vr.NumMethod = 0 then
        ValueFromReflected env h n (vr.Elem h) frozen
      else if vr.Kind = .Ptr ∧ vr.IsNil = true then .ok (some .dNil)
      else if vr.Kind = .Func then .ok (some (.dFunc vr.val vr.ro))
      else
        match (if vr.CanInterface then
                if isValue vr.Interface then some (.ok vr.Interface)
                else
                  match valueWith env h (ValueFromReflected env h n) vr.Interface frozen with
                  | .ok none => none
                  | r => some r
              else none : Option (Res Iface)) with
        | some r => r
        | none =>
          if (vr.Kind == .Ptr) && (vr.Elem h).Kind != .Struct then
            ValueFromReflected env h n (vr.Elem h) frozen
          else .ok (some (.dNative vr.val vr.ro)) := by
  rw [ValueFromReflected]
  simp only [hvalid, Bool.not_true, Bool.false_eq_true, if_false]

/-- One step of `ValueFromReflected` comes back when the calls on the handles
nested in its argument do. -/
theorem ValueFromReflected_step_ne_outOfFuel (env : Env) (h : Heap) (n : Nat) (vr : RValue)
    (frozen : Bool)
    (hc : ∀ c, c ∈ vr.children h → ValueFromReflected env h n c frozen ≠ .outOfFuel) :
    ValueFromReflected env h (n + 1) vr frozen ≠ .outOfFuel := by
  by_cases hvalid : vr.IsValid = true
  swap
  · rw [ValueFromReflected]; simp [hvalid]
  unfold RValue.children at hc
  simp only [hvalid, Bool.not_true, Bool.false_eq_true, if_false] at hc
  by_cases hs : vr.Kind = .Slice
  · rw [ValueFromReflected]
    simp only [hvalid, hs, Bool.not_true, Bool.false_eq_true, if_false] at hc ⊢
    unfold ArrayFromReflected
    have := realizeAll_ne_outOfFuel (ValueFromReflected env h n) frozen (vr.Elems h) hc
    split <;> simp_all
  by_cases hm : vr.Kind = .Map
  · rw [ValueFromReflected]
    simp only [hvalid, hm, Bool.not_true, Bool.false_eq_true, if_false] at hc ⊢
    unfold FromReflectedMap
    have := realizeEntries_ne_outOfFuel (ValueFromReflected env h n) frozen (vr.Entries h)
      (fun kv hkv => ⟨hc kv.1 (by simp; exact Or.inl ⟨_, hkv⟩),
                      hc kv.2 (by simp; exact Or.inr ⟨_, hkv⟩)⟩)
    split <;> simp_all
  have hnest : ∀ c, c ∈ vr.nested → ValueFromReflected env h n c frozen ≠ .outOfFuel := by
    intro c hcn
    apply hc
    split <;> simp_all
  have helem : vr.Kind = .Interface ∨ vr.Kind = .Ptr →
      ValueFromReflected env h n (vr.Elem h) frozen ≠ .outOfFuel := by
    intro hk
    apply hc
    rcases hk with hk | hk <;> simp [hk]
  have hw : valueWith env h (ValueFromReflected env h n) vr.Interface frozen ≠ .outOfFuel := by
    apply valueWith_ne_outOfFuel
    intro a b hab
    apply hnest
    simp [RValue.nested, hab]
  rw [ValueFromReflected_succ_plain env h n vr frozen hvalid hs hm]
  generalize valueWith env h (ValueFromReflected env h n) vr.Interface frozen = w at hw
  split
  · rename_i hi; exact helem (Or.inl hi.1)
  · split
    · simp
    · split
      · simp
      · split
        · rename_i r hd
          split at hd
          · split at hd
            · simp at hd; subst hd; simp
            · cases w with
              | ok x =>
                cases x with
                | none => simp at hd
                | some y => simp at hd; subst hd; simp
              | panic p => simp at hd; subst hd; simp
              | outOfFuel => exact absurd rfl hw
          · simp at hd
        · split
          · rename_i hp
            simp at hp
            exact helem (Or.inr hp.1)
          · simp

/-- A bound that serves each member of a list serves them all. -/
theorem uniform_fuel (P : Nat → RValue → Prop) :
    ∀ l : List RValue, (∀ c, c ∈ l → ∃ N, ∀ m, N ≤ m → P m c) →
      ∃ N, ∀ c, c ∈ l → ∀ m, N ≤ m → P m c
  | [], _ => ⟨0, by simp⟩
  | c :: rest, hl => by
    obtain ⟨N1, h1⟩ := hl c (by simp)
    obtain ⟨N2, h2⟩ := uniform_fuel P rest (fun d hd => hl d (by simp [hd]))
    refine ⟨max N1 N2, ?_⟩
    intro d hd m hm
    rcases List.mem_cons.mp hd with rfl | hd
    · exact h1 m (le_trans (le_max_left _ _) hm)
    · exact h2 d hd m (le_trans (le_max_right _ _) hm)

/-- C18 as stated fails: for the finite cyclic value `var p interface{}; p = &p`
the recursive calls go from the pointer to the interface it points to and back
to the same pointer, and no amount of fuel lets `ValueFromReflected` come back. -/
theorem ValueFromReflected_cycle_never_returns :
    cyclicHeap.cell 0 = some (.iface 0 0 (some selfPtr)) ∧
    (∀ n, ValueFromReflected sampleEnv cyclicHeap (n + 1) (RValue.ValueOf (some selfPtr)) false
        = ValueFromReflected sampleEnv cyclicHeap n
            ((RValue.ValueOf (some selfPtr)).Elem cyclicHeap) false) ∧
    (∀ n, ValueFromReflected sampleEnv cyclicHeap (n + 1)
          ((RValue.ValueOf (some selfPtr)).Elem cyclicHeap) false
        = ValueFromReflected sampleEnv cyclicHeap n (RValue.ValueOf (some selfPtr)) false) ∧
    (∀ n, ValueFromReflected sampleEnv cyclicHeap n (RValue.ValueOf (some selfPtr)) false
        = .outOfFuel) :=
  ⟨rfl, fun n => (cyclic_step n).1, fun n => (cyclic_step n).2, fun n => (cyclic_diverges n).1⟩

/-- C18, amended: on every handle whose tree of nested handles (elements,
keys and values, interface contents, pointees, nested reflect.Values) is
finite, `ValueFromReflected` terminates: from some amount of fuel on, the call
comes back with a result or a panic. -/
theorem ValueFromReflected_terminates (env : Env) (h : Heap) (vr : RValue) (frozen : Bool)
    (hf : Finite h vr) :
    ∃ N, ∀ m, N ≤ m → ValueFromReflected env h m vr frozen ≠ .outOfFuel := by
  induction hf with
  | intro vr _ ih =>
    obtain ⟨N, hN⟩ := uniform_fuel
      (fun m c => ValueFromReflected env h m c frozen ≠ .outOfFuel) (vr.children h) ih
    refine ⟨N + 1, ?_⟩
    intro m hm
    obtain ⟨k, rfl⟩ : ∃ k, m = k + 1 := ⟨m - 1, by omega⟩
    apply ValueFromReflected_step_ne_outOfFuel
    intro c hc
    exact hN c hc k (by omega)

/-- The pointer to an `int` of the sample heap is finite. -/
theorem finite_intPtr : Finite sampleHeap (RValue.ValueOf (some intPtr)) := by
  apply Finite.intro
  intro c hc
  have hc' : c = ⟨some (.int .int none 5), false⟩ := by
    simpa [RValue.children, RValue.ValueOf, RValue.IsValid, RValue.Kind, intPtr, GoVal.typeOf,
      Named.wrap, GoType.kind, RValue.Elem, RValue.nested, RValue.Interface, sampleHeap] using hc
  subst hc'
  apply Finite.intro
  intro d hd
  simp [RValue.children, RValue.IsValid, RValue.Kind, GoVal.typeOf,
      Named.wrap, GoType.kind, IntKind.kind, RValue.nested, RValue.Interface] at hd

/-- A run of C18: the pointer to an `int` is finite, and with fuel 2 the
call returns the integer. -/
theorem ValueFromReflected_terminates_witness :
    (∃ N, ∀ m, N ≤ m →
      ValueFromReflected sampleEnv sampleHeap m (RValue.ValueOf (some intPtr)) false
        ≠ .outOfFuel) ∧
    ValueFromReflected sampleEnv sampleHeap 2 (RValue.ValueOf (some intPtr)) false
      = .ok (some (.dInt 5)) :=
  ⟨ValueFromReflected_terminates sampleEnv sampleHeap (RValue.ValueOf (some intPtr)) false
    finite_intPtr, rfl⟩

/-! ## Realizing a reflected handle and realizing its value -/

/-- The function `value` uses its callback for a `reflect.Value` only. -/
theorem valueWith_callback (env : Env) (h : Heap) (vfr1 vfr2 : RValue → Bool → Res Iface)
    (x : Iface) (frozen : Bool) (hx : isReflectValue x = false) :
    valueWith env h vfr1 x frozen = valueWith env h vfr2 x frozen := by
  unfold valueWith
  split <;> first | rfl | skip
  split
  · rfl
  · split
    · rfl
    · simp [isReflectValue] at hx
    · rfl

/-- On a `reflect.Value`, `Value` is `ValueFromReflected` on it. -/
theorem Value_of_reflected (env : Env) (h : Heap) (m : Nat) (x : Iface) (ro : Bool) :
    Value env h m (some (.reflected x ro)) = ValueFromReflected env h m ⟨x, ro⟩ false := by
  have hv : isValue (some (.reflected x ro)) = false := rfl
  have hw : value env h m (some (.reflected x ro)) false
      = ValueFromReflected env h m ⟨x, ro⟩ false := rfl
  unfold Value
  rw [hw]
  simp only [hv, Bool.false_eq_true, if_false]
  cases hr : ValueFromReflected env h m ⟨x, ro⟩ false with
  | ok r =>
    have := ValueFromReflected_isValue env h m _ _ r hr
    cases r with
    | none => simp [isValue] at this
    | some y => rfl
  | panic p => rfl
  | outOfFuel => rfl

/-- Naming a type keeps its kind. -/
theorem Named_wrap_kind (n : Named) (u : GoType) : (Named.wrap n u).kind = u.kind := by
  cases n <;> rfl

/-- No integer type is of interface kind. -/
theorem IntKind_kind_ne_interface (w : IntKind) : w.kind ≠ .Interface := by
  cases w <;> simp [IntKind.kind]

/-- No floating-point type is of interface kind. -/
theorem FloatKind_kind_ne_interface (w : FloatKind) : w.kind ≠ .Interface := by
  cases w <;> simp [FloatKind.kind]

/-- None of the remaining basic types is of interface kind. -/
theorem OtherKind_kind_ne_interface (w : OtherKind) : w.kind ≠ .Interface := by
  cases w <;> simp [OtherKind.kind]

/-- The handle of a dynamic value is not of interface kind and gives the
value back. -/
theorem valueOf_kind_ne_interface (v : GoVal) (hv : isIfaceStorage (some v) = false) :
    (RValue.ValueOf (some v)).Kind ≠ .Interface ∧
    (RValue.ValueOf (some v)).Interface = some v := by
  cases v <;>
    simp_all [isIfaceStorage, RValue.ValueOf, RValue.Kind, RValue.Interface, GoVal.typeOf,
      Named_wrap_kind, GoType.kind, IntKind_kind_ne_interface, FloatKind_kind_ne_interface,
      OtherKind_kind_ne_interface]

/-- When `value` settles the held value, `ValueFromReflected` on its handle
gives the same. -/
theorem ValueFromReflected_of_match (env : Env) (h : Heap) (n : Nat) (x : GoVal)
    (hni : isIfaceStorage (some x) = false) (hp : plainKind (some x))
    (hv : isValue (some x) = false) (w : Res Iface)
    (hw : valueWith env h (ValueFromReflected env h n) (some x) false = w)
    (hne : w ≠ .ok none) :
    ValueFromReflected env h (n + 1) (RValue.ValueOf (some x)) false = w := by
  obtain ⟨hs, hm, hf, hn⟩ := hp
  obtain ⟨hi, hint⟩ := valueOf_kind_ne_interface x hni
  rw [ValueFromReflected_succ_plain env h n (RValue.ValueOf (some x)) false rfl hs hm]
  rw [if_neg (fun hc => hi hc.1), if_neg hn, if_neg hf, hint, hw]
  have hcan : (RValue.ValueOf (some x)).CanInterface = true := rfl
  cases w with
  | ok r =>
    cases r with
    | none => exact absurd rfl hne
    | some y => simp [hcan, hv]
  | panic p => simp [hcan, hv]
  | outOfFuel => simp [hcan, hv]

/-- A held value that satisfies the value contract comes back from
`ValueFromReflected` on its handle. -/
theorem ValueFromReflected_of_value (env : Env) (h : Heap) (n : Nat) (x : GoVal)
    (hni : isIfaceStorage (some x) = false) (hp : plainKind (some x))
    (hv : isValue (some x) = true) :
    ValueFromReflected env h (n + 1) (RValue.ValueOf (some x)) false = .ok (some x) := by
  obtain ⟨hs, hm, hf, hn⟩ := hp
  obtain ⟨hi, hint⟩ := valueOf_kind_ne_interface x hni
  rw [ValueFromReflected_succ_plain env h n (RValue.ValueOf (some x)) false rfl hs hm]
  rw [if_neg (fun hc => hi hc.1), if_neg hn, if_neg hf, hint]
  have hcan : (RValue.ValueOf (some x)).CanInterface = true := rfl
  simp only [hcan, hv, if_true]

/-- C17 as stated fails: for the nil pointer of a type `*T` that implements
`dgo.Value`, `Value(x)` returns the pointer itself, while
`Value(reflect.ValueOf(x))` returns the nil value; for a function whose type
implements `dgo.Value`, `Value(x)` returns it and the reflected path wraps it
as a callable value. -/
theorem Value_reflected_differs :
    (Value sampleEnv emptyHeap 1 (some nilValuePtr) = .ok (some nilValuePtr) ∧
      Value sampleEnv emptyHeap 1 (some (.reflected (some nilValuePtr) false))
        = .ok (some .dNil) ∧
      Value sampleEnv emptyHeap 1 (some (.reflected (some nilValuePtr) false))
        ≠ Value sampleEnv emptyHeap 1 (some nilValuePtr)) ∧
    (Value sampleEnv emptyHeap 1 (some funcValue) = .ok (some funcValue) ∧
      Value sampleEnv emptyHeap 1 (some (.reflected (some funcValue) false))
        = .ok (some (.dFunc (some funcValue) false)) ∧
      Value sampleEnv emptyHeap 1 (some (.reflected (some funcValue) false))
        ≠ Value sampleEnv emptyHeap 1 (some funcValue)) := by
  have a1 : Value sampleEnv emptyHeap 1 (some nilValuePtr) = .ok (some nilValuePtr) := rfl
  have a2 : Value sampleEnv emptyHeap 1 (some (.reflected (some nilValuePtr) false))
      = .ok (some .dNil) := rfl
  have b1 : Value sampleEnv emptyHeap 1 (some funcValue) = .ok (some funcValue) := rfl
  have b2 : Value sampleEnv emptyHeap 1 (some (.reflected (some funcValue) false))
      = .ok (some (.dFunc (some funcValue) false)) := rfl
  refine ⟨⟨a1, a2, ?_⟩, ⟨b1, b2, ?_⟩⟩
  · rw [a1, a2]
    intro hh
    injection hh with hh
    injection hh with hh
    exact GoVal.noConfusion hh
  · rw [b1, b2]
    intro hh
    injection hh with hh
    injection hh with hh
    exact GoVal.noConfusion hh

/-- C17, amended: for a native value `x` (a dynamic value) whose kind is not
slice, map or function and that is not a nil pointer, or that is no
`dgo.Value` and that `value` matches by no fast path and no coercion:
`Value(reflect.ValueOf(x))` comes out as `Value(x)` does; when `x` is itself a
`reflect.Value`, the reflected side makes one more nested call. -/
theorem Value_reflected_agrees (env : Env) (h : Heap) (n : Nat) (x : Iface)
    (hni : isIfaceStorage x = false)
    (hc : plainKind x ∨ (isValue x = false ∧ value env h (n + 1) x false = .ok none)) :
    (isReflectValue x = false →
      Value env h (n + 1) (some (.reflected x false)) = Value env h (n + 1) x) ∧
    (isReflectValue x = true →
      Value env h (n + 1) (some (.reflected x false)) = Value env h n x) := by
  rw [Value_of_reflected]
  constructor
  · intro hnr
    rcases hc with hp | ⟨hv, hval⟩
    · cases x with
      | none => rfl
      | some v =>
        by_cases hv : isValue (some v) = true
        · have := ValueFromReflected_of_value env h n v hni hp hv
          rw [RValue.ValueOf] at this
          rw [this]
          simp [Value, hv]
        · have hv' : isValue (some v) = false := by simpa using hv
          generalize hw : valueWith env h (ValueFromReflected env h n) (some v) false = w
          have hw2 : value env h (n + 1) (some v) false = w := by
            unfold value
            rw [valueWith_callback env h _ (ValueFromReflected env h n) (some v) false hnr, hw]
          by_cases hne : w = .ok none
          · subst hne
            simp [Value, hv', hw2, RValue.ValueOf]
          · have := ValueFromReflected_of_match env h n v hni hp hv' w hw hne
            rw [RValue.ValueOf] at this
            rw [this]
            unfold Value
            rw [hw2]
            simp only [hv', Bool.false_eq_true, if_false]
    · simp [Value, hv, hval, RValue.ValueOf]
  · intro hr
    cases x with
    | none => simp [isReflectValue] at hr
    | some v =>
      cases v <;> simp [isReflectValue] at hr
      rename_i a b
      rw [Value_of_reflected]
      have hp : plainKind (some (.reflected a b)) := by
        refine ⟨?_, ?_, ?_, ?_⟩ <;> simp [RValue.ValueOf, RValue.Kind, GoVal.typeOf, GoType.kind]
      have hv : isValue (some (.reflected a b)) = false := rfl
      generalize hw : ValueFromReflected env h n ⟨a, b⟩ false = w
      have hw' : valueWith env h (ValueFromReflected env h n) (some (.reflected a b)) false
          = w := hw
      have hne : w ≠ .ok none := by
        intro hh
        subst hh
        have := ValueFromReflected_isValue env h n _ _ _ hw
        simp [isValue] at this
      have := ValueFromReflected_of_match env h n (.reflected a b) rfl hp hv w hw' hne
      rw [RValue.ValueOf] at this
      exact this

/-- A run of C17: the `int` 3 and a `reflect.Value` holding it are both
realized as the integer value 3. -/
theorem Value_reflected_agrees_witness :
    Value sampleEnv emptyHeap 1 (some (.reflected (some (.int .int none 3)) false))
      = Value sampleEnv emptyHeap 1 (some (.int .int none 3)) ∧
    Value sampleEnv emptyHeap 1 (some (.int .int none 3)) = .ok (some (.dInt 3)) :=
  ⟨(Value_reflected_agrees sampleEnv emptyHeap 0 (some (.int .int none 3)) rfl
      (Or.inl ⟨by decide, by decide, by decide, by decide⟩)).1 rfl, rfl⟩


/-! ## Reflection projection -/

/-- The guard of `ReflectTo` for a destination of interface type: its type
is assignable to `dgo.Value` exactly when it is `dgo.Value` itself or an
interface type that includes the methods of `dgo.Value`. -/
theorem AssignableTo_value_of_iface (d : Decls) (nm id : Nat) (dyn : Option GoVal) :
    AssignableTo d (.iface nm id dyn) reflectValueType = true ↔
      (GoType.iface nm id = reflectValueType ∨
        (4 ≤ nm ∧ d.implements (.iface nm id) 1 = true)) := by
  by_cases ht : GoType.iface nm id = reflectValueType
  · simp [AssignableTo, GoVal.typeIn, GoVal.typeDeclared, GoVal.isDomain, GoVal.typeOf, ht]
  · simp [AssignableTo, GoVal.typeIn, GoVal.typeDeclared, GoVal.isDomain, GoVal.typeOf, ht,
      reflectValueType]

/-- A value whose type the sources do not fix is a value of the engine. -/
theorem isDomain_of_not_typeDeclared (w : GoVal) (hw : w.typeDeclared = false) :
    w.isDomain = true := by
  cases w <;> simp_all [GoVal.typeDeclared, GoVal.isDomain]

/-- The guard of `ReflectTo` for a destination that is not of interface
type: its type is assignable to `dgo.Value` exactly when it implements it. -/
theorem AssignableTo_value_of_concrete (d : Decls) (w : GoVal)
    (hw : isIfaceStorage (some w) = false) :
    AssignableTo d w reflectValueType = w.implValue := by
  have h1 : AssignableTo d w reflectValueType
      = (if w.typeIn d == reflectValueType then true else w.implValue) := by
    cases w <;> first
      | (simp [isIfaceStorage] at hw; done)
      | simp [AssignableTo, reflectValueType]
  rw [h1]
  by_cases ht : (w.typeIn d == reflectValueType) = true
  · rw [if_pos ht]
    by_cases hdcl : w.typeDeclared = true
    · have hk := (valueOf_kind_ne_interface w hw).1
      have hty : w.typeOf = reflectValueType := by
        have := eq_of_beq ht
        simpa [GoVal.typeIn, hdcl] using this
      exact absurd (by simp [RValue.Kind, RValue.ValueOf, hty, reflectValueType, GoType.kind]) hk
    · have hdom := isDomain_of_not_typeDeclared w (by simpa using hdcl)
      simp [GoVal.implValue, hdom]
  · rw [if_neg ht]

/-- What `ReflectTo` does when it does not delegate. -/
theorem ReflectTo_of_not_delegated (d : Decls) (src : Iface) (dest : Slot) (w : GoVal)
    (hw : dest.rv.val = some w)
    (hn : ¬ (AssignableTo d w reflectValueType = false ∧ ∃ v, src = some v ∧ d.offers v = true)) :
    ReflectTo d src dest = dest.Set d (RValue.ValueOf src) := by
  unfold ReflectTo
  rw [hw]
  cases ha : AssignableTo d w reflectValueType
  · cases src with
    | none => simp
    | some v =>
      have ho : d.offers v = false := by
        cases ho : d.offers v
        · rfl
        · exact absurd ⟨ha, v, rfl, ho⟩ hn
      simp [ho]
  · simp [ha]

/-- What `ReflectTo` does when it delegates. -/
theorem ReflectTo_of_delegated (d : Decls) (src : Iface) (dest : Slot) (w v : GoVal)
    (hw : dest.rv.val = some w) (ha : AssignableTo d w reflectValueType = false)
    (hs : src = some v) (ho : d.offers v = true) :
    ReflectTo d src dest = .done (.delegated v dest) := by
  subst hs
  unfold ReflectTo
  rw [hw]
  simp [ha, ho]

/-- The outcomes of `Set`: it stores the value exactly when the value is
there, the destination is settable and the types fit, and it ends in a panic
of package reflect otherwise. -/
theorem Set_outcome (d : Decls) (dest : Slot) (w : GoVal) (src : Iface)
    (hw : dest.rv.val = some w) :
    (∀ v, src = some v → dest.rv.ro = false → dest.addressable = true →
      AssignableTo d v (w.typeIn d) = true →
      dest.Set d (RValue.ValueOf src) = .done (.assigned dest v)) ∧
    (src = none → dest.rv.ro = false → dest.addressable = true →
      dest.Set d (RValue.ValueOf src) = .reflect .setOfZero) ∧
    (dest.rv.ro = true → dest.Set d (RValue.ValueOf src) = .reflect .setReadOnly) ∧
    (dest.rv.ro = false → dest.addressable = false →
      dest.Set d (RValue.ValueOf src) = .reflect .setUnaddressable) ∧
    (∀ v, src = some v → dest.rv.ro = false → dest.addressable = true →
      AssignableTo d v (w.typeIn d) = false →
      dest.Set d (RValue.ValueOf src)
        = .reflect (.setNotAssignable (v.typeIn d) (w.typeIn d))) := by
  refine ⟨?_, ?_, ?_, ?_, ?_⟩
  · intro v hs hr had hat
    subst hs
    simp [Slot.Set, hw, hr, had, hat, RValue.ValueOf]
  · intro hs hr had
    subst hs
    simp [Slot.Set, hw, hr, had, RValue.ValueOf]
  · intro hr
    simp [Slot.Set, hw, hr]
  · intro hr had
    simp [Slot.Set, hw, hr, had]
  · intro v hs hr had hat
    subst hs
    simp [Slot.Set, hw, hr, had, hat, RValue.ValueOf]

/-- C11 as stated fails: a destination of the empty interface type can hold
a `dgo.Value` directly, yet `interface{}` is not assignable to `dgo.Value`,
and for a source that offers its own projection `ReflectTo` delegates to it
and does not assign the source, whatever the declarations are. -/
theorem ReflectTo_empty_interface_delegates :
    canHoldValue emptyInterface = true ∧
    emptySlot.rv.val.map GoVal.typeOf = some emptyInterface ∧
    (∀ d : Decls, d.offers (.dInt 3) = true →
      ReflectTo d (some (.dInt 3)) emptySlot = .done (.delegated (.dInt 3) emptySlot)) ∧
    ReflectTo sampleDecls (some (.dInt 3)) emptySlot
      = .done (.delegated (.dInt 3) emptySlot) ∧
    ReflectTo sampleDecls (some (.dInt 3)) emptySlot
      ≠ .done (.assigned emptySlot (.dInt 3)) := by
  have h0 : ∀ d : Decls, d.offers (.dInt 3) = true →
      ReflectTo d (some (.dInt 3)) emptySlot = .done (.delegated (.dInt 3) emptySlot) := by
    intro d ho
    refine ReflectTo_of_delegated d _ emptySlot (.iface 0 0 none) (.dInt 3) rfl ?_ rfl ho
    cases ha : AssignableTo d (.iface 0 0 none) reflectValueType
    · rfl
    · have := (AssignableTo_value_of_iface d 0 0 none).mp ha
      rcases this with h1 | ⟨h1, _⟩
      · exact absurd h1 (by decide)
      · omega
  have h1 := h0 sampleDecls rfl
  refine ⟨rfl, rfl, h0, h1, ?_⟩
  rw [h1]
  intro hh
  injection hh with hh
  exact Projection.noConfusion hh

/-- C11, amended: for a valid destination holding `w`, `ReflectTo`
delegates to the source's own `ReflectTo(dest)` exactly when the type of the
destination is not assignable to `dgo.Value` and the source offers its own
projection; in every other case it is `dest.Set(reflect.ValueOf(src))`, which
stores the source itself when the source is not nil, the destination is
settable and the type of the source is assignable to that of the destination,
and panics otherwise.  A destination of interface type is assignable to
`dgo.Value` exactly when its type is `dgo.Value` or includes its methods; a
settable destination of type `dgo.Value` receives the source itself. -/
theorem ReflectTo_delegates_or_assigns (d : Decls) (src : Iface) (dest : Slot) (w : GoVal)
    (hw : dest.rv.val = some w) :
    ((∃ v, ReflectTo d src dest = .done (.delegated v dest)) ↔
      (AssignableTo d w reflectValueType = false ∧ ∃ v, src = some v ∧ d.offers v = true)) ∧
    (∀ v, AssignableTo d w reflectValueType = false → src = some v → d.offers v = true →
      ReflectTo d src dest = .done (.delegated v dest)) ∧
    (¬ (AssignableTo d w reflectValueType = false ∧ ∃ v, src = some v ∧ d.offers v = true) →
      ReflectTo d src dest = dest.Set d (RValue.ValueOf src)) ∧
    (∀ v, src = some v → dest.rv.ro = false → dest.addressable = true →
      AssignableTo d v (w.typeIn d) = true →
      dest.Set d (RValue.ValueOf src) = .done (.assigned dest v)) ∧
    (∀ p, dest.Set d (RValue.ValueOf src) = .done p →
      ∃ v, src = some v ∧ p = .assigned dest v ∧ dest.rv.ro = false ∧
        dest.addressable = true ∧ AssignableTo d v (w.typeIn d) = true) ∧
    (∀ nm id dyn, w = .iface nm id dyn →
      (AssignableTo d w reflectValueType = true ↔
        (GoType.iface nm id = reflectValueType ∨
          (4 ≤ nm ∧ d.implements (.iface nm id) 1 = true)))) ∧
    (isIfaceStorage (some w) = false → AssignableTo d w reflectValueType = w.implValue) ∧
    (∀ v, w.typeIn d = reflectValueType → src = some v → v.implValue = true →
      isIfaceStorage (some v) = false → dest.rv.ro = false → dest.addressable = true →
      ReflectTo d src dest = .done (.assigned dest v)) := by
  have hset := Set_outcome d dest w src hw
  have hnot := ReflectTo_of_not_delegated d src dest w hw
  refine ⟨⟨?_, ?_⟩, ?_, hnot, hset.1, ?_, ?_, AssignableTo_value_of_concrete d w, ?_⟩
  · rintro ⟨v, hv⟩
    by_contra hn
    rw [hnot hn] at hv
    cases hr : dest.rv.ro
    · cases had : dest.addressable
      · rw [hset.2.2.2.1 hr had] at hv
        exact Projected.noConfusion hv
      · cases src with
        | none =>
          rw [hset.2.1 rfl hr had] at hv
          exact Projected.noConfusion hv
        | some x =>
          cases hat : AssignableTo d x (w.typeIn d)
          · rw [hset.2.2.2.2 x rfl hr had hat] at hv
            exact Projected.noConfusion hv
          · rw [hset.1 x rfl hr had hat] at hv
            injection hv with hv
            exact Projection.noConfusion hv
    · rw [hset.2.2.1 hr] at hv
      exact Projected.noConfusion hv
  · rintro ⟨ha, v, hs, ho⟩
    exact ⟨v, ReflectTo_of_delegated d src dest w v hw ha hs ho⟩
  · intro v ha hs ho
    exact ReflectTo_of_delegated d src dest w v hw ha hs ho
  · intro p hp
    cases hr : dest.rv.ro
    · cases had : dest.addressable
      · rw [hset.2.2.2.1 hr had] at hp
        exact Projected.noConfusion hp
      · cases src with
        | none =>
          rw [hset.2.1 rfl hr had] at hp
          exact Projected.noConfusion hp
        | some x =>
          cases hat : AssignableTo d x (w.typeIn d)
          · rw [hset.2.2.2.2 x rfl hr had hat] at hp
            exact Projected.noConfusion hp
          · rw [hset.1 x rfl hr had hat] at hp
            injection hp with hp
            exact ⟨x, rfl, hp.symm, rfl, rfl, hat⟩
    · rw [hset.2.2.1 hr] at hp
      exact Projected.noConfusion hp
  · intro nm id dyn hwi
    subst hwi
    exact AssignableTo_value_of_iface d nm id dyn
  · intro v ht hs hv hni hr had
    have ha : AssignableTo d w reflectValueType = true := by
      unfold AssignableTo
      simp [ht]
    rw [hnot (by simp [ha])]
    apply hset.1 v hs hr had
    rw [ht, AssignableTo_value_of_concrete d v hni, hv]

/-- A run of C11 with every value offering its own projection: an `int`
destination gets the projection of the source; destinations of type
`dgo.Value` and `dgo.Number` get the source itself; a nil source makes `Set`
panic. -/
theorem ReflectTo_delegates_or_assigns_witness :
    ReflectTo sampleDecls (some (.dInt 3)) intSlot = .done (.delegated (.dInt 3) intSlot) ∧
    ReflectTo sampleDecls (some (.dInt 3)) valueSlot = .done (.assigned valueSlot (.dInt 3)) ∧
    ReflectTo sampleDecls (some (.dInt 3)) numberSlot = .done (.assigned numberSlot (.dInt 3)) ∧
    ReflectTo sampleDecls none valueSlot = .reflect .setOfZero ∧
    ReflectTo plainDecls (some (.dInt 3)) intSlot
      = .reflect (.setNotAssignable (.struct 0) (.int .int)) :=
  ⟨(ReflectTo_delegates_or_assigns sampleDecls (some (.dInt 3)) intSlot
      (.int .int none 0) rfl).2.1 (.dInt 3) rfl rfl rfl,
   (ReflectTo_delegates_or_assigns sampleDecls (some (.dInt 3)) valueSlot
      (.iface 4 1 none) rfl).2.2.2.2.2.2.2 (.dInt 3) rfl rfl rfl rfl rfl rfl,
   rfl, rfl, rfl⟩

/-- The function `ReflectTo` raises none of the panics of `value.go`: it ends
with what it did or in a panic of package reflect. -/
theorem ReflectTo_ne_failed (d : Decls) (src : Iface) (dest : Slot) (msg : String) :
    ReflectTo d src dest ≠ .failed msg := by
  cases hw : dest.rv.val with
  | none => simp [ReflectTo, hw]
  | some w =>
    by_cases hn : AssignableTo d w reflectValueType = false ∧ ∃ v, src = some v ∧ d.offers v = true
    · obtain ⟨ha, v, hs, ho⟩ := hn
      rw [ReflectTo_of_delegated d src dest w v hw ha hs ho]
      exact fun hh => Projected.noConfusion hh
    · rw [ReflectTo_of_not_delegated d src dest w hw hn]
      simp only [Slot.Set, hw]
      split
      · exact fun hh => Projected.noConfusion hh
      · split
        · exact fun hh => Projected.noConfusion hh
        · split
          · exact fun hh => Projected.noConfusion hh
          · split
            · exact fun hh => Projected.noConfusion hh
            · split <;> exact fun hh => Projected.noConfusion hh

/-- C12: `FromValue` panics with the message `destination is not a pointer`
exactly when the destination is not of pointer kind, which includes the
untyped nil; for a pointer it is `ReflectTo` on the element pointed to, which
raises no panic of `value.go`.  The values that `value.go` builds as pointers
are of pointer kind. -/
theorem FromValue_pointer (d : Decls) (h : Heap) (src dest : Iface) :
    (FromValue d h src dest = .failed notPointerMessage
      ↔ (RValue.ValueOf dest).KindIn d ≠ .Ptr) ∧
    ((RValue.ValueOf dest).KindIn d = .Ptr →
      FromValue d h src dest = ReflectTo d src ((RValue.ValueOf dest).ElemSlot d h)) ∧
    (∀ (s : Slot) (msg : String), ReflectTo d src s ≠ .failed msg) ∧
    (RValue.ValueOf none).KindIn d ≠ .Ptr ∧
    FromValue d h src none = .failed notPointerMessage ∧
    (∀ (t : Int) (e : GoVal) (f : Option GoVal) (ro : Bool),
      (RValue.ValueOf (some (.dTime t))).KindIn d = .Ptr ∧
      (RValue.ValueOf (some (.dErr e))).KindIn d = .Ptr ∧
      (RValue.ValueOf (some (.dFunc f ro))).KindIn d = .Ptr) := by
  have hptr : (RValue.ValueOf dest).KindIn d = .Ptr →
      FromValue d h src dest = ReflectTo d src ((RValue.ValueOf dest).ElemSlot d h) := by
    intro hk
    simp [FromValue, hk]
  refine ⟨⟨?_, ?_⟩, hptr, fun s msg => ReflectTo_ne_failed d src s msg,
    by simp [RValue.KindIn, RValue.ValueOf], rfl, fun _ _ _ _ => ⟨rfl, rfl, rfl⟩⟩
  · intro hp hk
    rw [hptr hk] at hp
    exact ReflectTo_ne_failed d src _ _ hp
  · intro hk
    have : (Kind.Ptr != (RValue.ValueOf dest).KindIn d) = true := by
      simp [bne_iff_ne]
      exact fun hh => hk hh.symm
    simp [FromValue, this]

/-- A run of C12: a pointer to an `int` leads to `ReflectTo` on the `int`
it points to, an `int` destination to the panic, and a time value of the
engine, which is a pointer, to `ReflectTo` on the struct it points to. -/
theorem FromValue_pointer_witness :
    FromValue sampleDecls sampleHeap (some (.dInt 3)) (some intPtr)
      = ReflectTo sampleDecls (some (.dInt 3)) ⟨⟨some (.int .int none 5), false⟩, true⟩ ∧
    FromValue sampleDecls sampleHeap (some (.dInt 3)) (some (.int .int none 5))
      = .failed notPointerMessage ∧
    FromValue sampleDecls sampleHeap (some (.dInt 3)) (some (.dTime 0))
      ≠ .failed notPointerMessage :=
  ⟨(FromValue_pointer sampleDecls sampleHeap (some (.dInt 3)) (some intPtr)).2.1 rfl,
   (FromValue_pointer sampleDecls sampleHeap (some (.dInt 3))
      (some (.int .int none 5))).1.mpr (by decide),
   fun hh => (FromValue_pointer sampleDecls sampleHeap (some (.dInt 3))
      (some (.dTime 0))).1.mp hh rfl⟩

/-! ## Violations -/

/-- Comparing a violation with another one gives true exactly when the two
are the same violation. -/
theorem Violation_Equals_iff (e e2 : Violation) :
    e.Equals (.violation e2) = true ↔ e = e2 := by
  cases e <;> cases e2 <;> simp [Violation.Equals]

/-- C13: equality of the three violation errors is structural: an
assignment violation equals the one built from the same type and value, and
for a common type two assignment violations are equal iff their values are,
two size violations iff their sizes are, and two map-key violations iff
their keys are; violations in general are equal iff kind and captured fields
agree; and no violation equals a value that is not a violation. -/
theorem Violation_equality_structural (T : Ty) (V V2 : Option Lit) (n m : Int)
    (k k2 x : Lit) (e e2 : Violation) :
    (IllegalAssignment T V).Equals (.violation (IllegalAssignment T V)) = true ∧
    ((IllegalAssignment T V).Equals (.violation (IllegalAssignment T V2)) = true ↔ V = V2) ∧
    ((IllegalSize T n).Equals (.violation (IllegalSize T m)) = true ↔ n = m) ∧
    ((IllegalMapKey T k).Equals (.violation (IllegalMapKey T k2)) = true ↔ k = k2) ∧
    (e.Equals (.violation e2) = true ↔ e = e2) ∧
    e.Equals (.other x) = false ∧
    (IllegalAssignment Ty.string (some (.int 3))).Equals
      (.violation (IllegalAssignment Ty.string (some (.int 4)))) = false ∧
    (IllegalAssignment Ty.string (some (.int 3))).Equals (.other (.str "oops")) = false := by
  refine ⟨?_, ?_, ?_, ?_, Violation_Equals_iff e e2, ?_, by decide, by decide⟩
  · simp [Violation_Equals_iff]
  · simp [Violation_Equals_iff, IllegalAssignment]
  · simp [Violation_Equals_iff, IllegalSize]
  · simp [Violation_Equals_iff, IllegalMapKey]
  · cases e <;> rfl

/-- C14: the messages of the violations follow the fixed templates, for
every captured type, value, size and key; a string key or value is rendered
in double quotes; and the constructors are total functions, so that building
a violation cannot fail.  The last four parts are the messages that the
tests expect. -/
theorem Violation_messages (T : Ty) (v k : Lit) (n : Int) (s : String) :
    (IllegalAssignment T (some v)).Error
      = "the value " ++ v.render ++ " cannot be assigned to a variable of type " ++ T.render ∧
    (IllegalAssignment T none).Error
      = "nil cannot be assigned to a variable of type " ++ T.render ∧
    (IllegalSize T n).Error
      = "size constraint violation on type " ++ T.render
          ++ " when attempting resize to " ++ toString n ∧
    (IllegalMapKey T k).Error = "key " ++ k.render ++ " cannot be added to type " ++ T.render ∧
    (IllegalMapKey T (.str s)).Error
      = "key \"" ++ s ++ "\" cannot be added to type " ++ T.render ∧
    (IllegalAssignment Ty.string (some (.int 3))).Error
      = "the value 3 cannot be assigned to a variable of type string" ∧
    (IllegalAssignment Ty.string none).Error
      = "nil cannot be assigned to a variable of type string" ∧
    (IllegalSize (.scalar (.sizedString 1 10)) 12).Error
      = "size constraint violation on type string[1,10] when attempting resize to 12" ∧
    (IllegalMapKey structA (.str "b")).Error
      = "key \"b\" cannot be added to type \x7b\"a\":string\x7d" := by
  have hq : ∀ t : String, "key " ++ ("\"" ++ t) = "key \"" ++ t := by
    intro t
    rw [← String.append_assoc]
    rfl
  refine ⟨?_, ?_, ?_, ?_, ?_, by decide, by decide, by decide, by decide⟩ <;>
    simp [Violation.Error, Violation.template, Violation.fill, Violation.type,
      IllegalAssignment, IllegalSize, IllegalMapKey, String.join, Lit.render, quote,
      String.append_assoc, hq]

/-! ## Generic widening -/

/-- The unconstrained type of a literal value is in generic form. -/
theorem Lit_type_isGeneric (l : Lit) : l.type.isGeneric = true := by
  cases l <;> rfl

/-- Widening a scalar type gives a type in generic form. -/
theorem Scalar_Generic_isGeneric (s : Scalar) : s.Generic.isGeneric = true := by
  cases s with
  | exact v => exact Lit_type_isGeneric v
  | _ => rfl

/-- Widening leaves a scalar type in generic form as it is. -/
theorem Scalar_Generic_of_isGeneric (s : Scalar) (hs : s.isGeneric = true) :
    s.Generic = s := by
  cases s <;> simp_all [Scalar.Generic, Scalar.isGeneric]

/-- The element type of a literal sequence is in generic form. -/
theorem elementType_isGeneric (elems : List Lit) : (elementType elems).isGeneric = true := by
  cases elems with
  | nil => rfl
  | cons l ls =>
    simp only [elementType]
    split
    · exact Lit_type_isGeneric l
    · rfl

/-- Widening gives a type in generic form. -/
theorem Generic_isGeneric (T : Ty) : (Generic T).isGeneric = true := by
  induction T with
  | scalar s => simpa [Generic, Ty.isGeneric] using Scalar_Generic_isGeneric s
  | array e ih => simpa [Generic, Ty.isGeneric] using ih
  | sizedArray e min max ih => simpa [Generic, Ty.isGeneric] using ih
  | exactArray elems => simpa [Generic, Ty.isGeneric] using elementType_isGeneric elems
  | map k v ihk ihv => simp [Generic, Ty.isGeneric, ihk, ihv]
  | structMap fields =>
    simp [Generic, Ty.isGeneric, Scalar_Generic_isGeneric]

/-- Widening leaves a type in generic form as it is. -/
theorem Generic_of_isGeneric (T : Ty) (hT : T.isGeneric = true) : Generic T = T := by
  induction T with
  | scalar s =>
    simp only [Ty.isGeneric] at hT
    simp [Generic, Scalar_Generic_of_isGeneric s hT]
  | array e ih =>
    simp only [Ty.isGeneric] at hT
    simp [Generic, ih hT]
  | sizedArray e min max ih => simp [Ty.isGeneric] at hT
  | exactArray elems => simp [Ty.isGeneric] at hT
  | map k v ihk ihv =>
    simp only [Ty.isGeneric, Bool.and_eq_true] at hT
    simp [Generic, ihk hT.1, ihv hT.2]
  | structMap fields =>
    simp only [Ty.isGeneric, List.all_eq_true] at hT
    simp only [Generic, Ty.structMap.injEq]
    conv_rhs => rw [← List.map_id fields]
    apply List.map_congr_left
    intro f hf
    simp [Scalar_Generic_of_isGeneric f.2 (hT f hf)]

/-- C15: generic widening is total and idempotent: `Generic` is a function
defined on every type, its result carries no exact value, literal sequence or
size constraint, and widening a second time changes nothing; the type of the
literal sequence of `hello` and `world`, rendered `[hello world]`, widens to
the unconstrained sequence of strings, rendered `[]string`. -/
theorem Generic_idempotent (T : Ty) :
    (∃ G, Generic T = G ∧ G.isGeneric = true) ∧
    Generic (Generic T) = Generic T ∧
    helloWorld.render = "[hello world]" ∧
    Generic helloWorld = .array Ty.string ∧
    (Generic helloWorld).render = "[]string" :=
  ⟨⟨Generic T, rfl, Generic_isGeneric T⟩,
   Generic_of_isGeneric (Generic T) (Generic_isGeneric T), by decide, by decide, by decide⟩


end Dgo
